import Mathlib

/-!
# nsf2wav_wasm: the NSF to WAV rendering boundary

A shallow embedding of `src/nsf2wav_wasm.cpp`.

* Machine integers are `Int`/`Nat` with explicit reduction modulo `2^w`.
  The target is wasm32: `int` is 32 bits, `size_t` is 32 bits, `uint64_t` is
  64 bits, the byte order is little-endian.  Signed overflow of `int`
  (undefined in C++) is modelled as two's-complement wrap-around, which is
  what the target's `i32.add` / `i32.mul` compute.
* The emulation engine (`xgm::NSF`, `xgm::NSFPlayer`, `xgm::NSFPlayerConfig`)
  is not part of the source file.  It is taken as a parameter (`World`): the
  outcome of every member call is an arbitrary function of the session at the
  time of the call, which holds the collection object and the calls made on
  the player so far.
* The conversions are irreducible definitions: they are unfolded by name in
  the proofs, never by the unifier (which would count in unary up to `2^31`).
* `operator new` and the constructors are assumed not to fail.
* The destination buffer is addressed by byte offsets from `output_buffer`;
  the effect of a call on it is the ordered list of byte stores it makes.
-/

namespace Nsf2Wav

/-! ## Machine integers -/

/-- Conversion of an integer to `uint8_t`. -/
@[irreducible]
def toU8 (x : Int) : Nat := (x % 256).toNat

/-- Conversion of an integer to `uint16_t`. -/
@[irreducible]
def toU16 (x : Int) : Nat := (x % 65536).toNat

/-- Conversion of an integer to `uint32_t` (also `size_t` on wasm32). -/
@[irreducible]
def toU32 (x : Int) : Nat := (x % 4294967296).toNat

/-- Conversion of an integer to `uint64_t`. -/
@[irreducible]
def toU64 (x : Int) : Nat := (x % 18446744073709551616).toNat

/-- Conversion of an integer to `int` (32-bit two's complement). -/
@[irreducible]
def toI32 (x : Int) : Int := (x + 2147483648) % 4294967296 - 2147483648

/-- The values an `int` parameter can hold. -/
def IsInt32 (x : Int) : Prop := -2147483648 ≤ x ∧ x ≤ 2147483647

instance (x : Int) : Decidable (IsInt32 x) := by unfold IsInt32; infer_instance

/-! ## Size arithmetic of `nsf_to_wav` (source lines 188-192) -/

/-- The `sizeof(WAVHeader)` of the packed struct: 44 bytes. -/
def sizeofWAVHeader : Nat := 44

/-- Source line 188:
`uint64_t total_frames = (uint64_t)(length_ms + fade_ms) * sample_rate / 1000;`
The sum is an `int` addition, converted to `uint64_t` afterwards; the product
is a `uint64_t` multiplication. -/
def total_frames (length_ms fade_ms sample_rate : Int) : Nat :=
  (toU64 (toI32 (length_ms + fade_ms)) * toU64 sample_rate) % 18446744073709551616 / 1000

/-- Source line 191:
`uint32_t data_size = total_frames * channels * sizeof(int16_t);`
a `uint64_t` product truncated to 32 bits by the initialisation. -/
def data_size (totalFrames : Nat) (channels : Int) : Nat :=
  ((totalFrames * toU64 channels) % 18446744073709551616 * 2) % 18446744073709551616
    % 4294967296

/-- Source line 192: `uint32_t total_size = sizeof(WAVHeader) + data_size;` -/
def total_size (dataSize : Nat) : Nat := (sizeofWAVHeader + dataSize) % 4294967296

/-! ## The engine, as far as this file uses it -/

/-- The fields of `xgm::NSF` that the source reads or sets, and the parsed
file image, which only the engine looks at. `title`, `artist` and `copyright`
are C strings (the bytes before the terminating NUL), `none` for a null
pointer. -/
structure NSF where
  title : Option (List Nat)
  artist : Option (List Nat)
  copyright : Option (List Nat)
  total_songs : Int
  start : Int
  default_playtime : Int
  default_fadetime : Int
  default_loopnum : Int
  playtime_unknown : Bool
  image : List Nat
  deriving DecidableEq, Repr

/-- The `xgm::NSFPlayerConfig`: a mapping of named integer options. -/
abbrev NSFPlayerConfig := List (String × Int)

/-- The member functions of `xgm::NSFPlayer` that the source calls, with the
arguments it passes. -/
inductive EngineOp where
  | SetConfig
  | Load
  | SetPlayFreq (rate : Int)
  | SetChannels (channels : Int)
  | SetSong (song : Int)
  | Reset
  | UpdateInfinite
  | Render (frames : Int)
  deriving DecidableEq, Repr

/-- The `xgm::NSFPlayer` object: the member calls made on it since it was
constructed, oldest first. Everything the engine holds (selected song, sample
rate, channel count, playback position) is a function of this history and of
the objects it points to. -/
structure NSFPlayer where
  calls : List EngineOp
  deriving DecidableEq, Repr

/-- The three globals `g_nsf`, `g_player`, `g_config`; `none` is `nullptr`. -/
structure Session where
  g_nsf : Option NSF
  g_player : Option NSFPlayer
  g_config : Option NSFPlayerConfig
  deriving DecidableEq, Repr

/-- The state before any call: all three globals are `nullptr`. -/
def Session.uninitialized : Session := ⟨none, none, none⟩

/-- An `int16_t` buffer: index to sample value. -/
abbrev SampleBuf := Nat → Int

/-- How a call into the collaborator ended. -/
inductive Outcome (α : Type) where
  | returned (value : α)
  | threw
  deriving DecidableEq, Repr

/-- The behaviour of everything outside the source file. Each outcome is an
arbitrary function of the session at the time of the call. -/
structure World where
  /-- The state of a default-constructed `xgm::NSF`. -/
  newNSF : NSF
  /-- The state of a default-constructed `xgm::NSFPlayerConfig`. -/
  newConfig : NSFPlayerConfig
  /-- What `NSF::LoadFile` reports on a file holding these bytes, and the
  state it leaves the object in. -/
  LoadFile : NSF → List Nat → Outcome Bool × NSF
  /-- Whether this `NSFPlayer` member call raises a C++ exception. -/
  throws : Session → EngineOp → Bool
  /-- The return value of `NSFPlayer::Load`. -/
  LoadOk : Session → Bool
  /-- What `NSFPlayer::Render` leaves in the buffer it is given, and the frame
  count it returns. -/
  Render : Session → SampleBuf → Int → SampleBuf × Int
  /-- The contents of a fresh `new int16_t[n]` (uninitialised storage). -/
  freshBuffer : SampleBuf

/-- One member call on `g_player` (every call site has checked the pointer):
the call is recorded in the history of the player; the flag tells whether it
raised. -/
def callPlayer (W : World) (s : Session) (op : EngineOp) : Session × Bool :=
  ({ s with g_player := s.g_player.map fun p => ⟨p.calls ++ [op]⟩ }, W.throws s op)

/-- A run of member calls in a `try` block: stops at the first that raises. -/
def callPlayerSeq (W : World) (s : Session) : List EngineOp → Session × Bool
  | [] => (s, false)
  | op :: ops =>
    match callPlayer W s op with
    | (s1, true) => (s1, true)
    | (s1, false) => callPlayerSeq W s1 ops

/-! ## Player session lifecycle (source lines 55-155, 321-334) -/

/-- The `(*g_config)[name] = value` assignment. -/
def setOption (c : NSFPlayerConfig) (name : String) (value : Int) : NSFPlayerConfig :=
  (name, value) :: c.filter (fun kv => kv.1 ≠ name)

/-- Source lines 55-76, `init_nsf_player`: the old objects are deleted, the
three objects are created anew, the defaults are set and the configuration is
handed to the player. An exception of `SetConfig` gives 0, with the three new
objects in place. -/
def init_nsf_player (W : World) (_s : Session) : Int × Session :=
  let g_config :=
    setOption (setOption (setOption W.newConfig "MASTER_VOLUME" 256) "APU2_OPTION5" 0)
      "APU2_OPTION7" 0
  let s1 : Session := ⟨some W.newNSF, some ⟨[]⟩, some g_config⟩
  match callPlayer W s1 EngineOp.SetConfig with
  | (s2, true) => (0, s2)
  | (s2, false) => (1, s2)

/-- Modelled from the spec: `NSF::SetDefaults(play, fade, loop)` of the engine,
which is not in the source file; it assigns the fallback play time, fade time
and loop count of the collection. -/
def NSF.SetDefaults (n : NSF) (play fade loop : Int) : NSF :=
  { n with default_playtime := play, default_fadetime := fade, default_loopnum := loop }

/-- Source lines 90-119: the `try` block of `load_nsf_data`. `fopen_ok` tells
whether the temporary file could be opened for writing. -/
def loadTry (W : World) (s1 : Session) (data : List Nat) (fopen_ok : Bool) : Int × Session :=
  match s1.g_nsf with
  | none => (0, s1)
  | some nsf =>
    if !fopen_ok then (0, s1)
    else
      match W.LoadFile nsf data with
      | (Outcome.threw, nsf1) => (0, { s1 with g_nsf := some nsf1 })
      | (Outcome.returned false, nsf1) => (0, { s1 with g_nsf := some nsf1 })
      | (Outcome.returned true, nsf1) =>
        let nsf2 := if nsf1.playtime_unknown then nsf1.SetDefaults 120000 3000 1 else nsf1
        let s2 : Session := { s1 with g_nsf := some nsf2 }
        match callPlayer W s2 EngineOp.Load with
        | (s3, true) => (0, s3)
        | (s3, false) => if W.LoadOk s2 then (1, s3) else (0, s3)

/-- Source lines 85-120, `load_nsf_data`: the player is created first when
`g_nsf` or `g_player` is null, then the `try` block runs. -/
def load_nsf_data (W : World) (s : Session) (data : List Nat) (fopen_ok : Bool) :
    Int × Session :=
  let entry : Int × Session :=
    if s.g_nsf.isNone || s.g_player.isNone then init_nsf_player W s else (1, s)
  if entry.1 = 0 then (0, entry.2) else loadTry W entry.2 data fopen_ok

/-- The `NSFInfo` struct filled by `get_nsf_info`; the three text fields hold
the C string left in the 256-byte arrays. -/
structure NSFInfo where
  title : List Nat
  artist : List Nat
  copyright : List Nat
  total_songs : Int
  default_song : Int
  length_ms : Int
  fade_ms : Int
  deriving DecidableEq, Repr

/-- The C string left by `strncpy(dst, src, 255); dst[255] = 0`, a null source
pointer being replaced by the empty string. -/
def copyText (src : Option (List Nat)) : List Nat := (src.getD []).take 255

/-- Source lines 128-155, `get_nsf_info`: the return value and the struct
written through `info` (nothing is written when it returns 0). -/
def get_nsf_info (s : Session) : Int × Option NSFInfo :=
  match s.g_nsf with
  | none => (0, none)
  | some nsf =>
    (1, some
      { title := copyText nsf.title
        artist := copyText nsf.artist
        copyright := copyText nsf.copyright
        total_songs := nsf.total_songs
        default_song := nsf.start
        length_ms := nsf.default_playtime
        fade_ms := nsf.default_fadetime })

/-- Source lines 321-334, `cleanup`: each global that is set is deleted and
nulled, `g_nsf` first, then `g_player`, then `g_config`. -/
def cleanup (s : Session) : Session :=
  let s1 : Session := if s.g_nsf.isSome then { s with g_nsf := none } else s
  let s2 : Session := if s1.g_player.isSome then { s1 with g_player := none } else s1
  if s2.g_config.isSome then { s2 with g_config := none } else s2

/-! ## Destination memory -/

/-- A byte store: destination offset and byte value. -/
abbrev Write := Nat × Nat

/-- Destination memory: offset from `output_buffer` to byte. -/
abbrev Mem := Nat → Nat

/-- One byte store. -/
def writeByte (m : Mem) (w : Write) : Mem := fun i => if i = w.1 then w.2 else m i

/-- The memory after a sequence of byte stores, made in order. -/
def applyWrites (m : Mem) (ws : List Write) : Mem := ws.foldl writeByte m

/-- A `memcpy` of the given bytes to the offset. -/
def memcpy : Nat → List Nat → List Write
  | _, [] => []
  | off, b :: bs => (off, b) :: memcpy (off + 1) bs

/-- The store of an unsigned integer of `width` bytes at the offset on the
little-endian target: least significant byte first. -/
def storeLE : Nat → Nat → Nat → List Write
  | 0, _, _ => []
  | width + 1, off, v => (off, v % 256) :: storeLE width (off + 1) (v / 256)

/-- The bytes of a string literal, without the terminating NUL. -/
def chars (s : String) : List Nat := s.toList.map Char.toNat

/-! ## `nsf_to_wav` (source lines 169-245) -/

/-- Source lines 199-214: the stores through `header`, a packed `WAVHeader`
at offset 0 of the destination, in source order. -/
def writeHeader (sample_rate channels : Int) (totalSize dataSize : Nat) : List Write :=
  memcpy 0 (chars "RIFF")
    ++ storeLE 4 4 (toU32 ((totalSize : Int) - 8))
    ++ memcpy 8 (chars "WAVE")
    ++ memcpy 12 (chars "fmt ")
    ++ storeLE 4 16 16
    ++ storeLE 2 20 1
    ++ storeLE 2 22 (toU16 channels)
    ++ storeLE 4 24 (toU32 sample_rate)
    ++ storeLE 4 28 ((toU32 (toI32 (sample_rate * channels)) * 2) % 4294967296)
    ++ storeLE 2 32 (toU16 (((toU32 channels * 2) % 4294967296 : Nat) : Int))
    ++ storeLE 2 34 16
    ++ memcpy 36 (chars "data")
    ++ storeLE 4 40 dataSize

/-- Source lines 231-235: the copy of `count` samples of the intermediate
buffer to `data_ptr`, each as `sample & 0xFF` then `(sample >> 8) & 0xFF`. -/
def copySamples (audio_buffer : SampleBuf) (data_ptr : Nat) (count : Nat) : List Write :=
  (List.range count).flatMap fun i =>
    [(data_ptr + 2 * i, toU8 (audio_buffer i)),
     (data_ptr + 2 * i + 1, toU8 (audio_buffer i / 256))]

/-- The state the chunk loop ends in: whether a `Render` raised, the session,
and all byte stores made to the destination so far. -/
structure LoopResult where
  threw : Bool
  session : Session
  writes : List Write

/-- The number of frames in the intermediate buffer, `frames_per_buffer`. -/
def frames_per_buffer : Nat := 4096

/-- Source line 225:
`int frames_to_render = std::min(remaining_frames, (uint64_t)frames_per_buffer);` -/
def frames_to_render (remaining_frames : Nat) : Int :=
  toI32 ((min remaining_frames frames_per_buffer : Nat) : Int)

/-- Source lines 224-238: the `while (remaining_frames > 0)` loop. `written`
holds the byte stores made before the iteration. -/
def renderLoop (W : World) (channels : Int) (s : Session) (audio_buffer : SampleBuf)
    (data_ptr : Nat) (remaining_frames : Nat) (written : List Write) : LoopResult :=
  if 0 < remaining_frames then
    let n := frames_to_render remaining_frames
    match callPlayer W s (EngineOp.Render n) with
    | (s1, true) => ⟨true, s1, written⟩
    | (s1, false) =>
      let buf1 := (W.Render s audio_buffer n).1
      let count := (toI32 (n * channels)).toNat
      renderLoop W channels s1 buf1 (data_ptr + 2 * count)
        (toU64 ((remaining_frames : Int) - n)) (written ++ copySamples buf1 data_ptr count)
  else ⟨false, s, written⟩
termination_by remaining_frames
decreasing_by
  simp only [frames_to_render, frames_per_buffer, toU64, toI32]
  omega

/-- Source lines 179-185: the member calls that configure the player, select
the song (0-based inside) and reset it. -/
def setupOps (track_number sample_rate channels : Int) : List EngineOp :=
  [EngineOp.SetPlayFreq sample_rate, EngineOp.SetChannels channels,
   EngineOp.SetSong (toI32 (track_number - 1)), EngineOp.Reset, EngineOp.UpdateInfinite]

/-- What a call of `nsf_to_wav` leaves: the return value, the byte stores made
to the destination, and the session. -/
structure WavResult where
  ret : Int
  writes : List Write
  session : Session

/-- Source lines 169-245, `nsf_to_wav`. -/
def nsf_to_wav (W : World) (s : Session)
    (track_number length_ms fade_ms sample_rate channels buffer_size : Int) : WavResult :=
  match s.g_nsf, s.g_player with
  | some nsf, some _ =>
    if channels < 1 ∨ channels > 2 then ⟨0, [], s⟩
    else if track_number < 1 ∨ track_number > nsf.total_songs then ⟨0, [], s⟩
    else
      match callPlayerSeq W s (setupOps track_number sample_rate channels) with
      | (s1, true) => ⟨0, [], s1⟩
      | (s1, false) =>
        let totalFrames := total_frames length_ms fade_ms sample_rate
        let dataSize := data_size totalFrames channels
        let totalSize := total_size dataSize
        if totalSize > toU32 buffer_size then ⟨0, [], s1⟩
        else
          let header := writeHeader sample_rate channels totalSize dataSize
          let loop :=
            renderLoop W channels s1 W.freshBuffer sizeofWAVHeader totalFrames header
          if loop.threw then ⟨0, loop.writes, loop.session⟩
          else ⟨toI32 totalSize, loop.writes, loop.session⟩
  | _, _ => ⟨0, [], s⟩

/-! ## Track control and streaming (source lines 252-315) -/

/-- Source lines 252-263, `nsf_set_track`; exceptions are swallowed. -/
def nsf_set_track (W : World) (s : Session) (track_number : Int) : Session :=
  match s.g_player, s.g_nsf with
  | some _, some nsf =>
    if 0 ≤ track_number ∧ track_number < nsf.total_songs then
      (callPlayerSeq W s [EngineOp.SetSong track_number, EngineOp.Reset]).1
    else s
  | _, _ => s

/-- Source lines 271-279, `nsf_player_set_options`; exceptions are swallowed. -/
def nsf_player_set_options (W : World) (s : Session) (sample_rate channels : Int) : Session :=
  match s.g_player with
  | some _ =>
    (callPlayerSeq W s [EngineOp.SetPlayFreq sample_rate, EngineOp.SetChannels channels]).1
  | none => s

/-- Source lines 289-301, `nsf_render_audio`: the return value, the caller's
buffer afterwards (`none` is a null `output_buffer`), and the session. -/
def nsf_render_audio (W : World) (s : Session) (_track_number frame_count : Int)
    (output_buffer : Option SampleBuf) : Int × Option SampleBuf × Session :=
  match s.g_player, s.g_nsf, output_buffer with
  | some _, some _, some buf =>
    if frame_count ≤ 0 then (0, output_buffer, s)
    else
      match callPlayer W s (EngineOp.Render frame_count) with
      | (s1, true) => (0, some (W.Render s buf frame_count).1, s1)
      | (s1, false) =>
        (toI32 (toU32 (W.Render s buf frame_count).2), some (W.Render s buf frame_count).1, s1)
  | _, _, _ => (0, output_buffer, s)

/-- Source lines 307-315, `nsf_reset`; exceptions are swallowed. -/
def nsf_reset (W : World) (s : Session) : Session :=
  match s.g_player with
  | some _ => (callPlayer W s EngineOp.Reset).1
  | none => s

/-! ## Concrete collaborators used to evaluate the code -/

/-- A default-constructed collection: no text, no songs. -/
def emptyNSF : NSF := ⟨none, none, none, 0, 0, 0, 0, 0, false, []⟩

/-- A parser that accepts a file starting with the five bytes `NESM\x1a` and
reads the song count from byte 6 and the first song from byte 7. -/
def headerLoadFile (n : NSF) (data : List Nat) : Outcome Bool × NSF :=
  if data.take 5 = [78, 69, 83, 77, 26] then
    (Outcome.returned true,
      { n with total_songs := data.getD 6 0, start := data.getD 7 0,
               playtime_unknown := true, image := data })
  else (Outcome.returned false, n)

/-- An engine that never raises and renders silence. -/
def silentWorld : World where
  newNSF := emptyNSF
  newConfig := []
  LoadFile := headerLoadFile
  throws := fun _ _ => false
  LoadOk := fun _ => true
  Render := fun _ _ n => (fun _ => 0, n)
  freshBuffer := fun _ => 0

/-- An engine like `silentWorld` whose `Render` raises when it is asked for
fewer frames than a full chunk of 4096. -/
def faultyWorld : World where
  newNSF := emptyNSF
  newConfig := []
  LoadFile := headerLoadFile
  throws := fun _ op =>
    match op with
    | EngineOp.Render n => decide (n < 4096)
    | _ => false
  LoadOk := fun _ => true
  Render := fun _ _ n => (fun _ => 0, n)
  freshBuffer := fun _ => 0

/-- A minimal file for `headerLoadFile`: three songs, the first one first. -/
def nesmFile : List Nat := [78, 69, 83, 77, 26, 1, 3, 1]

/-- The session after `load_nsf_data` of `nesmFile` from the initial state. -/
def loadedSession : Session := (load_nsf_data silentWorld Session.uninitialized nesmFile true).2

/-- A destination holding zero bytes. -/
def zeroMem : Mem := fun _ => 0

/-! ## Sequences of lifecycle calls -/

/-- A call of one of the three lifecycle entry points, with its arguments. -/
inductive LifecycleCall where
  | callInit
  | callLoad (data : List Nat) (fopen_ok : Bool)
  | callCleanup
  deriving DecidableEq, Repr

/-- The session after one lifecycle call. -/
def runCall (W : World) (s : Session) : LifecycleCall → Session
  | LifecycleCall.callInit => (init_nsf_player W s).2
  | LifecycleCall.callLoad data fopen_ok => (load_nsf_data W s data fopen_ok).2
  | LifecycleCall.callCleanup => cleanup s

/-- The session after a sequence of lifecycle calls, made in order. -/
def runCalls (W : World) (s : Session) (calls : List LifecycleCall) : Session :=
  calls.foldl (runCall W) s

/-! ## Reference definitions, following the specification -/

/-- The bytes of an integer field of `width` bytes stored little-endian: byte
`i` holds bits `8 i .. 8 i + 7` of the value (two's complement for a negative
value). -/
def leField (width : Nat) (v : Int) : List Nat :=
  (List.range width).map fun i => (v / 256 ^ i % 256).toNat

/-- The canonical 44-byte PCM header of the specification, section 4.3, as a
function of sample rate, channel count and data size: `RIFF`, chunk size
(total size minus 8, the total size being 44 plus the data size), `WAVE`,
`fmt `, sub-chunk size 16, format code 1, channel count, sample rate, byte
rate, block align, bit depth 16, `data`, data size. -/
def canonicalHeader (sample_rate channels : Int) (dataSize : Nat) : List Nat :=
  [0x52, 0x49, 0x46, 0x46] ++ leField 4 ((44 + dataSize : Int) - 8)
    ++ [0x57, 0x41, 0x56, 0x45]
    ++ [0x66, 0x6d, 0x74, 0x20] ++ leField 4 16 ++ leField 2 1 ++ leField 2 channels
    ++ leField 4 sample_rate ++ leField 4 (sample_rate * channels * 2)
    ++ leField 2 (channels * 2) ++ leField 2 16
    ++ [0x64, 0x61, 0x74, 0x61] ++ leField 4 dataSize

/-- Parsing an unsigned little-endian field of `width` bytes at the offset. -/
def readLE (m : Mem) (off : Nat) : Nat → Nat
  | 0 => 0
  | width + 1 => m off + 256 * readLE m (off + 1) width

/-! ## Reading the record of engine calls -/

/-- The session with further member calls recorded in the history of the
player, everything else unchanged. -/
def logged (s : Session) (ops : List EngineOp) : Session :=
  { s with g_player := s.g_player.map fun p => ⟨p.calls ++ ops⟩ }

/-- The frame counts of the chunks of a render of `total` frames: as many
full chunks of 4096 frames as fit, then the remainder when it is not zero. -/
def chunkSizes (total : Nat) : List Nat :=
  List.replicate (total / 4096) 4096 ++ (if total % 4096 = 0 then [] else [total % 4096])

/-- The `Render` calls requesting the given frame counts, in order. -/
def renderCalls (sizes : List Nat) : List EngineOp :=
  sizes.map fun n => EngineOp.Render (n : Int)

/-- The world in which `Render` leaves the same samples but reports the frame
counts given by `count`; everything else is as in `W`. -/
def withRenderCount (W : World) (count : Session → SampleBuf → Int → Int) : World :=
  { W with Render := fun s buf n => ((W.Render s buf n).1, count s buf n) }

/-- The samples the chunk loop copies to the destination, in copy order: after
each `Render` that returned, the first `frames_to_render * channels` entries
of the intermediate buffer. `copied` holds the samples of the earlier chunks.
The recursion is that of `renderLoop`. -/
def renderedSamples (W : World) (channels : Int) (s : Session) (audio_buffer : SampleBuf)
    (remaining_frames : Nat) (copied : List Int) : List Int :=
  if 0 < remaining_frames then
    let n := frames_to_render remaining_frames
    match callPlayer W s (EngineOp.Render n) with
    | (_, true) => copied
    | (s1, false) =>
      let buf1 := (W.Render s audio_buffer n).1
      let count := (toI32 (n * channels)).toNat
      renderedSamples W channels s1 buf1 (toU64 ((remaining_frames : Int) - n))
        (copied ++ (List.range count).map buf1)
  else copied
termination_by remaining_frames
decreasing_by
  simp only [frames_to_render, frames_per_buffer, toU64, toI32]
  omega

/-- Decoding two bytes, low byte first, as a little-endian signed 16-bit
integer. -/
def decodeS16 (lo hi : Nat) : Int :=
  if lo + 256 * hi < 32768 then ((lo + 256 * hi : Nat) : Int)
  else ((lo + 256 * hi : Nat) : Int) - 65536

/-! ## The created state -/

/-- Modelled from the spec: the session states the specification calls
`Created`, those reached by a successful `init_nsf_player` with no successful
`load_nsf_data` since. After the successful `init_nsf_player`, any number of
calls may follow of `load_nsf_data` that do not return 1, `nsf_set_track`,
`nsf_player_set_options`, `nsf_render_audio`, `nsf_reset` and `nsf_to_wav`. -/
inductive Created (W : World) : Session → Prop where
  | init (s0 : Session) :
      (init_nsf_player W s0).1 = 1 → Created W (init_nsf_player W s0).2
  | failedLoad (c : Session) (data : List Nat) (fopen_ok : Bool) :
      Created W c → (load_nsf_data W c data fopen_ok).1 ≠ 1 →
      Created W (load_nsf_data W c data fopen_ok).2
  | setTrack (c : Session) (track_number : Int) :
      Created W c → Created W (nsf_set_track W c track_number)
  | setOptions (c : Session) (sample_rate channels : Int) :
      Created W c → Created W (nsf_player_set_options W c sample_rate channels)
  | renderAudio (c : Session) (track_number frame_count : Int)
      (output_buffer : Option SampleBuf) :
      Created W c → Created W (nsf_render_audio W c track_number frame_count output_buffer).2.2
  | reset (c : Session) :
      Created W c → Created W (nsf_reset W c)
  | toWav (c : Session)
      (track_number length_ms fade_ms sample_rate channels buffer_size : Int) :
      Created W c →
      Created W
        (nsf_to_wav W c track_number length_ms fade_ms sample_rate channels buffer_size).session

/-- An engine like `silentWorld` whose `NSFPlayer::Load` reports failure: a
file is parsed into the collection object but never bound to the player. -/
def unboundWorld : World where
  newNSF := emptyNSF
  newConfig := []
  LoadFile := headerLoadFile
  throws := fun _ _ => false
  LoadOk := fun _ => false
  Render := fun _ _ n => (fun _ => 0, n)
  freshBuffer := fun _ => 0

/-- The session after a successful `init_nsf_player` and a `load_nsf_data` of
`nesmFile` that fails when the file is handed to the player. -/
def unboundSession : Session :=
  (load_nsf_data unboundWorld (init_nsf_player unboundWorld Session.uninitialized).2
    nesmFile true).2

/-! ## Helper lemmas -/

theorem toI32_eq_self {x : Int} (h : IsInt32 x) : toI32 x = x := by
  unfold IsInt32 at h
  unfold toI32
  omega

theorem frames_to_render_eq (r : Nat) : frames_to_render r = ((min r 4096 : Nat) : Int) := by
  unfold frames_to_render frames_per_buffer toI32
  omega

theorem renderLoop_zero (W : World) (channels : Int) (s : Session) (buf : SampleBuf)
    (ptr : Nat) (written : List Write) :
    renderLoop W channels s buf ptr 0 written = ⟨false, s, written⟩ := by
  rw [renderLoop]; simp

theorem renderLoop_pos (W : World) (channels : Int) (s : Session) (buf : SampleBuf)
    (ptr r : Nat) (written : List Write) (h : 0 < r) :
    renderLoop W channels s buf ptr r written =
      match callPlayer W s (EngineOp.Render (frames_to_render r)) with
      | (s1, true) => ⟨true, s1, written⟩
      | (s1, false) =>
        renderLoop W channels s1 (W.Render s buf (frames_to_render r)).1
          (ptr + 2 * (toI32 (frames_to_render r * channels)).toNat)
          (toU64 ((r : Int) - frames_to_render r))
          (written ++ copySamples (W.Render s buf (frames_to_render r)).1 ptr
            (toI32 (frames_to_render r * channels)).toNat) := by
  rw [renderLoop]; simp [h]

theorem copySamples_offsets (buf : SampleBuf) (ptr count : Nat) :
    (copySamples buf ptr count).map Prod.fst = List.range' ptr (2 * count) := by
  induction count with
  | zero => simp [copySamples]
  | succ n ih =>
    unfold copySamples at ih ⊢
    rw [List.range_succ, List.flatMap_append, List.map_append, ih]
    simp only [List.flatMap_singleton, List.map_cons, List.map_nil]
    have : 2 * (n + 1) = 2 + 2 * n := by ring
    rw [this, ← List.range'_append]
    simp [List.range']

theorem chunk_count (r : Nat) (channels : Int) (hch : channels = 1 ∨ channels = 2) :
    (toI32 (frames_to_render r * channels)).toNat = min r 4096 * channels.toNat := by
  rw [frames_to_render_eq]
  unfold toI32
  rcases hch with h | h <;> subst h <;> simp <;> omega

theorem remaining_step (r : Nat) (hr : r < 18446744073709551616) :
    toU64 ((r : Int) - frames_to_render r) = r - min r 4096 := by
  rw [frames_to_render_eq]
  unfold toU64
  omega

theorem chunk_total (r c : Nat) : (r - min r 4096) * c + min r 4096 * c = r * c := by
  rw [← Nat.add_mul]
  congr 1
  omega

theorem renderLoop_raise (W : World) (channels : Int) (s s1 : Session) (buf : SampleBuf)
    (ptr r : Nat) (written : List Write) (h : 0 < r)
    (hc : callPlayer W s (EngineOp.Render (frames_to_render r)) = (s1, true)) :
    renderLoop W channels s buf ptr r written = ⟨true, s1, written⟩ := by
  rw [renderLoop_pos W channels s buf ptr r written h, hc]

theorem renderLoop_step (W : World) (channels : Int) (s s1 : Session) (buf : SampleBuf)
    (ptr r : Nat) (written : List Write) (h : 0 < r)
    (hc : callPlayer W s (EngineOp.Render (frames_to_render r)) = (s1, false)) :
    renderLoop W channels s buf ptr r written =
      renderLoop W channels s1 (W.Render s buf (frames_to_render r)).1
          (ptr + 2 * (toI32 (frames_to_render r * channels)).toNat)
          (toU64 ((r : Int) - frames_to_render r))
          (written ++ copySamples (W.Render s buf (frames_to_render r)).1 ptr
            (toI32 (frames_to_render r * channels)).toNat) := by
  rw [renderLoop_pos W channels s buf ptr r written h, hc]

theorem renderLoop_chunk (W : World) (channels : Int) (hch : channels = 1 ∨ channels = 2)
    (s s1 : Session) (buf : SampleBuf)
    (ptr r : Nat) (written : List Write) (h : 0 < r) (hr : r < 18446744073709551616)
    (hc : callPlayer W s (EngineOp.Render (frames_to_render r)) = (s1, false)) :
    renderLoop W channels s buf ptr r written =
      renderLoop W channels s1 (W.Render s buf (frames_to_render r)).1
          (ptr + 2 * (min r 4096 * channels.toNat))
          (r - min r 4096)
          (written ++ copySamples (W.Render s buf (frames_to_render r)).1 ptr
            (min r 4096 * channels.toNat)) := by
  rw [renderLoop_step W channels s s1 buf ptr r written h hc, chunk_count r channels hch,
    remaining_step r hr]
/-- The stores of the loop extend `written` by a run of consecutive offsets
starting at `data_ptr`; the run is complete when no `Render` raised. -/
theorem renderLoop_offsets (W : World) (channels : Int) (hch : channels = 1 ∨ channels = 2)
    (r : Nat) : ∀ (s : Session) (buf : SampleBuf) (ptr : Nat) (written : List Write),
      r < 18446744073709551616 →
      ∃ ws, (renderLoop W channels s buf ptr r written).writes = written ++ ws ∧
        ∃ k, k ≤ 2 * (r * channels.toNat) ∧ ws.map Prod.fst = List.range' ptr k ∧
          ((renderLoop W channels s buf ptr r written).threw = false →
            k = 2 * (r * channels.toNat)) := by
  induction r using Nat.strong_induction_on with
  | _ r ih =>
    intro s buf ptr written hr
    rcases Nat.eq_zero_or_pos r with h0 | hpos
    · subst h0
      exact ⟨[], by simp [renderLoop_zero], 0, by simp, by simp, fun _ => by simp⟩
    · rcases hcall : callPlayer W s (EngineOp.Render (frames_to_render r)) with ⟨s1, b⟩
      cases b with
      | true =>
        rw [renderLoop_raise W channels s s1 buf ptr r written hpos hcall]
        exact ⟨[], by simp, 0, by simp, by simp, by simp⟩
      | false =>
        rw [renderLoop_chunk W channels hch s s1 buf ptr r written hpos hr hcall]
        have hlt : r - min r 4096 < r := by omega
        obtain ⟨ws, hws, k, hk, hoff, hfull⟩ :=
          ih (r - min r 4096) hlt s1 (W.Render s buf (frames_to_render r)).1
            (ptr + 2 * (min r 4096 * channels.toNat))
            (written ++ copySamples (W.Render s buf (frames_to_render r)).1 ptr
              (min r 4096 * channels.toNat)) (by omega)
        have htot := chunk_total r channels.toNat
        refine ⟨copySamples (W.Render s buf (frames_to_render r)).1 ptr
            (min r 4096 * channels.toNat) ++ ws, ?_,
          k + 2 * (min r 4096 * channels.toNat), ?_, ?_, ?_⟩
        · rw [hws, List.append_assoc]
        · omega
        · rw [List.map_append, copySamples_offsets, hoff]
          have := List.range'_append ptr (2 * (min r 4096 * channels.toNat)) k 1
          simp at this
          simp [this]
        · intro hthrew
          have := hfull hthrew
          omega

theorem callPlayer_snd (W : World) (s : Session) (op : EngineOp) :
    (callPlayer W s op).2 = W.throws s op := rfl

theorem callPlayer_quiet (W : World) (hW : ∀ s op, W.throws s op = false) (s : Session)
    (op : EngineOp) : (callPlayer W s op).2 = false := by
  rw [callPlayer_snd, hW]

theorem callPlayerSeq_quiet (W : World) (hW : ∀ s op, W.throws s op = false)
    (ops : List EngineOp) : ∀ s : Session, (callPlayerSeq W s ops).2 = false := by
  induction ops with
  | nil => intro s; rfl
  | cons op ops ih =>
    intro s
    have h := callPlayer_quiet W hW s op
    rcases hc : callPlayer W s op with ⟨s1, b⟩
    rw [hc] at h
    simp only at h
    subst h
    simp only [callPlayerSeq, hc]
    exact ih s1

theorem renderLoop_quiet (W : World) (hW : ∀ s op, W.throws s op = false) (channels : Int)
    (r : Nat) : ∀ (s : Session) (buf : SampleBuf) (ptr : Nat) (written : List Write),
      (renderLoop W channels s buf ptr r written).threw = false := by
  induction r using Nat.strong_induction_on with
  | _ r ih =>
    intro s buf ptr written
    rcases Nat.eq_zero_or_pos r with h0 | hpos
    · subst h0; simp [renderLoop_zero]
    · have hlt : toU64 ((r : Int) - frames_to_render r) < r := by
        rw [frames_to_render_eq]; unfold toU64; omega
      have h := callPlayer_quiet W hW s (EngineOp.Render (frames_to_render r))
      rcases hcall : callPlayer W s (EngineOp.Render (frames_to_render r)) with ⟨s1, b⟩
      rw [hcall] at h
      simp only at h
      subst h
      rw [renderLoop_step W channels s s1 buf ptr r written hpos hcall]
      exact ih _ hlt _ _ _ _

theorem applyWrites_untouched (ws : List Write) (i : Nat) (h : ∀ w ∈ ws, w.1 ≠ i) :
    ∀ m : Mem, applyWrites m ws i = m i := by
  induction ws with
  | nil => intro m; rfl
  | cons w ws ih =>
    intro m
    have hw : w.1 ≠ i := h w (List.mem_cons_self _ _)
    have := ih (fun v hv => h v (List.mem_cons_of_mem _ hv)) (writeByte m w)
    simp only [applyWrites, List.foldl_cons] at this ⊢
    rw [this]
    simp [writeByte, Ne.symm hw]

theorem applyWrites_append (m : Mem) (ws1 ws2 : List Write) :
    applyWrites m (ws1 ++ ws2) = applyWrites (applyWrites m ws1) ws2 := by
  simp [applyWrites, List.foldl_append]

/-- A run of stores to consecutive offsets leaves exactly the stored bytes. -/
theorem applyWrites_run (ws : List Write) : ∀ (m : Mem) (a : Nat),
    ws.map Prod.fst = List.range' a ws.length →
      (List.range' a ws.length).map (applyWrites m ws) = ws.map Prod.snd := by
  induction ws with
  | nil => intro m a _; simp
  | cons w ws ih =>
    intro m a h
    simp only [List.length_cons, List.range'_succ, List.map_cons, List.cons.injEq] at h ⊢
    obtain ⟨hw, hrest⟩ := h
    have hstep : applyWrites m (w :: ws) = applyWrites (writeByte m w) ws := rfl
    constructor
    · rw [hstep, applyWrites_untouched ws a ?_ (writeByte m w)]
      · simp [writeByte, hw]
      · intro v hv
        have : v.1 ∈ ws.map Prod.fst := List.mem_map_of_mem _ hv
        rw [hrest, List.mem_range'] at this
        obtain ⟨i, _, hi⟩ := this
        omega
    · rw [hstep]
      exact ih (writeByte m w) (a + 1) hrest

theorem total_frames_lt (l f r : Int) : total_frames l f r < 18446744073709551616 := by
  unfold total_frames
  omega

/-- What a non-zero return value tells about the call. -/
theorem nsf_to_wav_nonzero (W : World) (s : Session)
    (tr l f r ch bs : Int) (h : (nsf_to_wav W s tr l f r ch bs).ret ≠ 0) :
    (ch = 1 ∨ ch = 2) ∧
    total_size (data_size (total_frames l f r) ch) ≤ toU32 bs ∧
    ∃ s1, callPlayerSeq W s (setupOps tr r ch) = (s1, false) ∧
      (renderLoop W ch s1 W.freshBuffer sizeofWAVHeader (total_frames l f r)
        (writeHeader r ch (total_size (data_size (total_frames l f r) ch))
          (data_size (total_frames l f r) ch))).threw = false ∧
      nsf_to_wav W s tr l f r ch bs =
        ⟨toI32 (total_size (data_size (total_frames l f r) ch)),
         (renderLoop W ch s1 W.freshBuffer sizeofWAVHeader (total_frames l f r)
            (writeHeader r ch (total_size (data_size (total_frames l f r) ch))
              (data_size (total_frames l f r) ch))).writes,
         (renderLoop W ch s1 W.freshBuffer sizeofWAVHeader (total_frames l f r)
            (writeHeader r ch (total_size (data_size (total_frames l f r) ch))
              (data_size (total_frames l f r) ch))).session⟩ := by
  unfold nsf_to_wav at h ⊢
  split at h
  · rename_i nsf p hn hp
    split_ifs at h with h1 h2
    · simp at h
    · simp at h
    · simp only [h1, h2, if_false]
      rcases hseq : callPlayerSeq W s (setupOps tr r ch) with ⟨s1, b⟩
      rw [hseq] at h
      cases b with
      | true => simp at h
      | false =>
        simp only at h ⊢
        split_ifs at h with h3 h4
        · simp at h
        · simp at h
        · refine ⟨by omega, by omega, s1, rfl, by simpa using h4, ?_⟩
          simp [h3, h4]
  · simp at h

/-- The first 44 destination bytes after the header stores and the chunk loop
are the bytes of the header stores: the loop stores from offset 44 upwards. -/
theorem header_region (W : World) (ch : Int) (hch : ch = 1 ∨ ch = 2) (s1 : Session)
    (buf : SampleBuf) (tf : Nat) (htf : tf < 18446744073709551616) (sr : Int) (ts ds : Nat)
    (dest : Mem) :
    (List.range 44).map
        (applyWrites dest (renderLoop W ch s1 buf 44 tf (writeHeader sr ch ts ds)).writes)
      = (writeHeader sr ch ts ds).map Prod.snd := by
  obtain ⟨ws, hws, k, _, hoff, _⟩ :=
    renderLoop_offsets W ch hch tf s1 buf 44 (writeHeader sr ch ts ds) htf
  rw [hws, applyWrites_append]
  have hlen : (writeHeader sr ch ts ds).length = 44 := by
    simp [writeHeader, storeLE, memcpy, chars]
  have hfst : (writeHeader sr ch ts ds).map Prod.fst
      = List.range' 0 (writeHeader sr ch ts ds).length := by
    rw [hlen]
    simp [writeHeader, storeLE, memcpy, chars, List.range']
  have hrun := applyWrites_run (writeHeader sr ch ts ds) dest 0 hfst
  rw [hlen] at hrun
  rw [← hrun, List.range_eq_range']
  apply List.map_congr_left
  intro i hi
  apply applyWrites_untouched
  intro w hw
  have : w.1 ∈ ws.map Prod.fst := List.mem_map_of_mem _ hw
  rw [hoff, List.mem_range'] at this
  obtain ⟨j, _, hj⟩ := this
  rw [List.mem_range'] at hi
  obtain ⟨j2, hj2, hi2⟩ := hi
  omega

theorem storeLE_four (off v : Nat) (x : Int) (h : (v : Int) = x % 4294967296) :
    (storeLE 4 off v).map Prod.snd = leField 4 x := by
  have e : leField 4 x = [(x / 1 % 256).toNat, (x / 256 % 256).toNat,
      (x / 65536 % 256).toNat, (x / 16777216 % 256).toNat] := rfl
  rw [e]
  simp only [storeLE, List.map_cons, List.map_nil, List.cons.injEq, and_true]
  refine ⟨?_, ?_, ?_, ?_⟩ <;> omega

theorem storeLE_two (off v : Nat) (x : Int) (h : (v : Int) = x % 65536) :
    (storeLE 2 off v).map Prod.snd = leField 2 x := by
  have e : leField 2 x = [(x / 1 % 256).toNat, (x / 256 % 256).toNat] := rfl
  rw [e]
  simp only [storeLE, List.map_cons, List.map_nil, List.cons.injEq, and_true]
  refine ⟨?_, ?_⟩ <;> omega

theorem memcpy_bytes (off : Nat) (bs : List Nat) : (memcpy off bs).map Prod.snd = bs := by
  induction bs generalizing off with
  | nil => rfl
  | cons b bs ih => simp [memcpy, ih]

/-- The header stores of the code are the canonical header of the
specification, for one or two channels and a 32-bit data size. -/
theorem writeHeader_bytes (sr ch : Int) (hch : ch = 1 ∨ ch = 2) (ds : Nat)
    (hds : ds < 4294967296) :
    (writeHeader sr ch (total_size ds) ds).map Prod.snd = canonicalHeader sr ch ds := by
  have f1 := storeLE_four 4 (toU32 ((total_size ds : Int) - 8)) ((44 + ds : Int) - 8)
    (by unfold toU32 total_size sizeofWAVHeader; omega)
  have f2 := storeLE_four 16 16 16 (by omega)
  have f3 := storeLE_two 20 1 1 (by omega)
  have f4 := storeLE_two 22 (toU16 ch) ch (by unfold toU16; omega)
  have f5 := storeLE_four 24 (toU32 sr) sr (by unfold toU32; omega)
  have f6 := storeLE_four 28 ((toU32 (toI32 (sr * ch)) * 2) % 4294967296) (sr * ch * 2)
    (by unfold toU32 toI32; rcases hch with h | h <;> subst h <;> omega)
  have f7 := storeLE_two 32 (toU16 (((toU32 ch * 2) % 4294967296 : Nat) : Int)) (ch * 2)
    (by unfold toU16 toU32; rcases hch with h | h <;> subst h <;> omega)
  have f8 := storeLE_two 34 16 16 (by omega)
  have f9 := storeLE_four 40 ds ds (by omega)
  have c1 : chars "RIFF" = [0x52, 0x49, 0x46, 0x46] := by decide
  have c2 : chars "WAVE" = [0x57, 0x41, 0x56, 0x45] := by decide
  have c3 : chars "fmt " = [0x66, 0x6d, 0x74, 0x20] := by decide
  have c4 : chars "data" = [0x64, 0x61, 0x74, 0x61] := by decide
  unfold writeHeader canonicalHeader
  simp only [List.map_append, memcpy_bytes]
  rw [f1, f2, f3, f4, f5, f6, f7, f8, f9, c1, c2, c3, c4]

/-- After a call that returned non-zero, the first 44 destination bytes are
the canonical header for the request. -/
theorem header_after_success (W : World) (s : Session) (tr l f r ch bs : Int) (dest : Mem)
    (hok : (nsf_to_wav W s tr l f r ch bs).ret ≠ 0) :
    (List.range 44).map (applyWrites dest (nsf_to_wav W s tr l f r ch bs).writes)
      = canonicalHeader r ch (data_size (total_frames l f r) ch) := by
  obtain ⟨hch, _, s1, _, _, heq⟩ := nsf_to_wav_nonzero W s tr l f r ch bs hok
  rw [heq]
  have hds : data_size (total_frames l f r) ch < 4294967296 := by
    unfold data_size; omega
  have := header_region W ch hch s1 W.freshBuffer (total_frames l f r)
    (total_frames_lt l f r) r (total_size (data_size (total_frames l f r) ch))
    (data_size (total_frames l f r) ch) dest
  simp only [sizeofWAVHeader]
  rw [this, writeHeader_bytes r ch hch _ hds]

/-- The call once the guards of source lines 173-175 are passed, the player is
configured and the capacity check of line 194 does not reject. -/
theorem nsf_to_wav_accepted (W : World) (s : Session) (nsf : NSF) (p : NSFPlayer)
    (hn : s.g_nsf = some nsf) (hp : s.g_player = some p) (tr l f r ch bs : Int)
    (hch : ch = 1 ∨ ch = 2) (htr : 1 ≤ tr ∧ tr ≤ nsf.total_songs) (s1 : Session)
    (hseq : callPlayerSeq W s (setupOps tr r ch) = (s1, false))
    (hsz : total_size (data_size (total_frames l f r) ch) ≤ toU32 bs) :
    nsf_to_wav W s tr l f r ch bs =
      if (renderLoop W ch s1 W.freshBuffer sizeofWAVHeader (total_frames l f r)
          (writeHeader r ch (total_size (data_size (total_frames l f r) ch))
            (data_size (total_frames l f r) ch))).threw then
        ⟨0,
         (renderLoop W ch s1 W.freshBuffer sizeofWAVHeader (total_frames l f r)
            (writeHeader r ch (total_size (data_size (total_frames l f r) ch))
              (data_size (total_frames l f r) ch))).writes,
         (renderLoop W ch s1 W.freshBuffer sizeofWAVHeader (total_frames l f r)
            (writeHeader r ch (total_size (data_size (total_frames l f r) ch))
              (data_size (total_frames l f r) ch))).session⟩
      else
        ⟨toI32 (total_size (data_size (total_frames l f r) ch)),
         (renderLoop W ch s1 W.freshBuffer sizeofWAVHeader (total_frames l f r)
            (writeHeader r ch (total_size (data_size (total_frames l f r) ch))
              (data_size (total_frames l f r) ch))).writes,
         (renderLoop W ch s1 W.freshBuffer sizeofWAVHeader (total_frames l f r)
            (writeHeader r ch (total_size (data_size (total_frames l f r) ch))
              (data_size (total_frames l f r) ch))).session⟩ := by
  have h1 : ¬ (ch < 1 ∨ ch > 2) := by omega
  have h2 : ¬ (tr < 1 ∨ tr > nsf.total_songs) := by omega
  have h3 : ¬ (total_size (data_size (total_frames l f r) ch) > toU32 bs) := by omega
  unfold nsf_to_wav
  simp only [hn, hp, h1, h2, h3, hseq, if_false]

/-- With an engine that never raises, an accepted request returns the 32-bit
total size and stores to the offsets 0, 1, 2, ... up to the header size plus
two bytes per sample of every frame. -/
theorem nsf_to_wav_quiet (W : World) (hW : ∀ s op, W.throws s op = false) (s : Session)
    (nsf : NSF) (p : NSFPlayer) (hn : s.g_nsf = some nsf) (hp : s.g_player = some p)
    (tr l f r ch bs : Int) (hch : ch = 1 ∨ ch = 2) (htr : 1 ≤ tr ∧ tr ≤ nsf.total_songs)
    (hsz : total_size (data_size (total_frames l f r) ch) ≤ toU32 bs) :
    (nsf_to_wav W s tr l f r ch bs).ret
        = toI32 (total_size (data_size (total_frames l f r) ch)) ∧
      (nsf_to_wav W s tr l f r ch bs).writes.map Prod.fst
        = List.range' 0 (44 + 2 * (total_frames l f r * ch.toNat)) := by
  have hq := callPlayerSeq_quiet W hW (setupOps tr r ch) s
  have hseq : callPlayerSeq W s (setupOps tr r ch)
      = ((callPlayerSeq W s (setupOps tr r ch)).1, false) := by
    rw [← hq]
  rw [nsf_to_wav_accepted W s nsf p hn hp tr l f r ch bs hch htr _ hseq hsz]
  have hthrew := renderLoop_quiet W hW ch (total_frames l f r)
    (callPlayerSeq W s (setupOps tr r ch)).1 W.freshBuffer sizeofWAVHeader
    (writeHeader r ch (total_size (data_size (total_frames l f r) ch))
      (data_size (total_frames l f r) ch))
  obtain ⟨ws, hws, k, _, hoff, hfull⟩ :=
    renderLoop_offsets W ch hch (total_frames l f r)
      (callPlayerSeq W s (setupOps tr r ch)).1 W.freshBuffer sizeofWAVHeader
      (writeHeader r ch (total_size (data_size (total_frames l f r) ch))
        (data_size (total_frames l f r) ch)) (total_frames_lt l f r)
  have hk := hfull hthrew
  subst hk
  have hfst : (writeHeader r ch (total_size (data_size (total_frames l f r) ch))
      (data_size (total_frames l f r) ch)).map Prod.fst = List.range' 0 44 := by
    simp [writeHeader, storeLE, memcpy, chars, List.range']
  simp only [hthrew, Bool.false_eq_true, if_false, true_and]
  rw [hws, List.map_append, hoff, hfst]
  have := List.range'_append 0 44 (2 * (total_frames l f r * ch.toNat)) 1
  simp only [sizeofWAVHeader]
  simp at this
  rw [this]
  congr 1
  omega

theorem loadedSession_nsf :
    loadedSession.g_nsf = some
      ⟨none, none, none, 3, 1, 120000, 3000, 1, true, [78, 69, 83, 77, 26, 1, 3, 1]⟩ := by
  decide

theorem loadedSession_player :
    loadedSession.g_player = some ⟨[EngineOp.SetConfig, EngineOp.Load]⟩ := by
  decide

theorem silentWorld_quiet : ∀ s op, silentWorld.throws s op = false := by
  intro s op; rfl

theorem map_range_getD {f : Nat → Nat} {n : Nat} {l : List Nat}
    (h : (List.range n).map f = l) (i : Nat) (hi : i < n) : f i = l.getD i 0 := by
  subst h
  simp [List.getD_eq_getElem?_getD, hi]

theorem callPlayerSeq_no_raise (W : World) (ops : List EngineOp)
    (h : ∀ s op, op ∈ ops → W.throws s op = false) :
    ∀ s : Session, (callPlayerSeq W s ops).2 = false := by
  induction ops with
  | nil => intro s; rfl
  | cons op ops ih =>
    intro s
    have h1 : (callPlayer W s op).2 = false := by
      rw [callPlayer_snd]; exact h s op (List.mem_cons_self _ _)
    rcases hc : callPlayer W s op with ⟨s1, b⟩
    rw [hc] at h1
    simp only at h1
    subst h1
    simp only [callPlayerSeq, hc]
    exact ih (fun s op hop => h s op (List.mem_cons_of_mem _ hop)) s1

theorem canonicalHeader_eq (sr ch : Int) (ds : Nat) :
    canonicalHeader sr ch ds =
      82 :: 73 :: 70 :: 70 ::
      (((44 + ds : Int) - 8) / 1 % 256).toNat :: (((44 + ds : Int) - 8) / 256 % 256).toNat ::
      (((44 + ds : Int) - 8) / 65536 % 256).toNat ::
      (((44 + ds : Int) - 8) / 16777216 % 256).toNat ::
      87 :: 65 :: 86 :: 69 :: 102 :: 109 :: 116 :: 32 :: 16 :: 0 :: 0 :: 0 :: 1 :: 0 ::
      (ch / 1 % 256).toNat :: (ch / 256 % 256).toNat ::
      (sr / 1 % 256).toNat :: (sr / 256 % 256).toNat :: (sr / 65536 % 256).toNat ::
      (sr / 16777216 % 256).toNat ::
      (sr * ch * 2 / 1 % 256).toNat :: (sr * ch * 2 / 256 % 256).toNat ::
      (sr * ch * 2 / 65536 % 256).toNat :: (sr * ch * 2 / 16777216 % 256).toNat ::
      (ch * 2 / 1 % 256).toNat :: (ch * 2 / 256 % 256).toNat ::
      16 :: 0 :: 100 :: 97 :: 116 :: 97 ::
      ((ds : Int) / 1 % 256).toNat :: ((ds : Int) / 256 % 256).toNat ::
      ((ds : Int) / 65536 % 256).toNat :: ((ds : Int) / 16777216 % 256).toNat :: [] := by
  rfl

theorem range_header :
    List.range 44 =
      0 :: 1 :: 2 :: 3 :: 4 :: 5 :: 6 :: 7 :: 8 :: 9 :: 10 :: 11 :: 12 :: 13 :: 14 :: 15 :: 16 :: 17 :: 18 :: 19 :: 20 :: 21 ::
      22 :: 23 :: 24 :: 25 :: 26 :: 27 :: 28 :: 29 :: 30 :: 31 :: 32 :: 33 :: 34 :: 35 :: 36 :: 37 :: 38 :: 39 :: 40 :: 41 :: 42 :: 43 :: [] := by
  decide

theorem readLE_four (m : Mem) (off : Nat) (x : Int) (h0 : m off = (x / 1 % 256).toNat)
    (h1 : m (off + 1) = (x / 256 % 256).toNat)
    (h2 : m (off + 1 + 1) = (x / 65536 % 256).toNat)
    (h3 : m (off + 1 + 1 + 1) = (x / 16777216 % 256).toNat) :
    (readLE m off 4 : Int) = x % 4294967296 := by
  simp only [readLE]
  omega

theorem readLE_two (m : Mem) (off : Nat) (x : Int) (h0 : m off = (x / 1 % 256).toNat)
    (h1 : m (off + 1) = (x / 256 % 256).toNat) :
    (readLE m off 2 : Int) = x % 65536 := by
  simp only [readLE]
  omega

/-- Parsing the size, channel, rate and data fields of the header left by a
call that returned non-zero. -/
theorem header_fields (W : World) (s : Session) (tr l f r ch bs : Int) (dest : Mem)
    (hok : (nsf_to_wav W s tr l f r ch bs).ret ≠ 0) :
    readLE (applyWrites dest (nsf_to_wav W s tr l f r ch bs).writes) 4 4
        = (data_size (total_frames l f r) ch + 36) % 4294967296 ∧
      (readLE (applyWrites dest (nsf_to_wav W s tr l f r ch bs).writes) 22 2 : Int) = ch ∧
      (readLE (applyWrites dest (nsf_to_wav W s tr l f r ch bs).writes) 24 4 : Int)
        = r % 4294967296 ∧
      readLE (applyWrites dest (nsf_to_wav W s tr l f r ch bs).writes) 40 4
        = data_size (total_frames l f r) ch := by
  have hh := header_after_success W s tr l f r ch bs dest hok
  obtain ⟨hch, _⟩ := nsf_to_wav_nonzero W s tr l f r ch bs hok
  have hds : data_size (total_frames l f r) ch < 4294967296 := by
    unfold data_size; omega
  rw [canonicalHeader_eq] at hh
  generalize applyWrites dest (nsf_to_wav W s tr l f r ch bs).writes = m at hh ⊢
  generalize data_size (total_frames l f r) ch = ds at hh hds ⊢
  simp only [range_header, List.map_cons, List.map_nil, List.cons.injEq, and_true] at hh
  obtain ⟨_, _, _, _, b4, b5, b6, b7, _, _, _, _, _, _, _, _, _, _, _, _, _, _, b22, b23,
    b24, b25, b26, b27, _, _, _, _, _, _, _, _, _, _, _, _, b40, b41, b42, b43⟩ := hh
  have e1 := readLE_four m 4 _ b4 b5 b6 b7
  have e2 := readLE_two m 22 _ b22 b23
  have e3 := readLE_four m 24 _ b24 b25 b26 b27
  have e4 := readLE_four m 40 _ b40 b41 b42 b43
  clear b4 b5 b6 b7 b22 b23 b24 b25 b26 b27 b40 b41 b42 b43
  refine ⟨?_, ?_, ?_, ?_⟩
  · omega
  · rcases hch with h | h <;> subst h <;> omega
  · exact e3
  · omega
theorem overflow_frames : total_frames 22369622 0 48000 = 1073741856 := by
  unfold total_frames toU64 toI32; decide

theorem overflow_data_size : data_size 1073741856 2 = 128 := by
  unfold data_size toU64; decide

/-- The request with 22369622 ms at 48000 Hz in stereo and a 172-byte
destination, on the loaded session with the silent engine: the return value
and the offsets stored to. -/
theorem overflow_request :
    (nsf_to_wav silentWorld loadedSession 1 22369622 0 48000 2 172).ret = 172 ∧
      (nsf_to_wav silentWorld loadedSession 1 22369622 0 48000 2 172).writes.map Prod.fst
        = List.range' 0 4294967468 := by
  have hq := nsf_to_wav_quiet silentWorld silentWorld_quiet loadedSession _ _
    loadedSession_nsf loadedSession_player 1 22369622 0 48000 2 172 (Or.inr rfl)
    (by decide)
    (by rw [overflow_frames, overflow_data_size]; unfold total_size toU32 sizeofWAVHeader
        decide)
  rw [overflow_frames, overflow_data_size] at hq
  refine ⟨?_, ?_⟩
  · rw [hq.1]; unfold toI32 total_size sizeofWAVHeader; decide
  · have e : 44 + 2 * (1073741856 * Int.toNat 2) = 4294967468 := by decide
    rw [hq.2, e]

/-- One second at 44100 Hz in stereo into a 176444-byte destination, on the
loaded session with the silent engine. -/
theorem second_request :
    (nsf_to_wav silentWorld loadedSession 1 1000 0 44100 2 176444).ret = 176444 ∧
      (nsf_to_wav silentWorld loadedSession 1 1000 0 44100 2 176444).writes.map Prod.fst
        = List.range' 0 176444 := by
  have htf : total_frames 1000 0 44100 = 44100 := by
    unfold total_frames toU64 toI32; decide
  have hds : data_size 44100 2 = 176400 := by
    unfold data_size toU64; decide
  have hq := nsf_to_wav_quiet silentWorld silentWorld_quiet loadedSession _ _
    loadedSession_nsf loadedSession_player 1 1000 0 44100 2 176444 (Or.inr rfl)
    (by decide)
    (by rw [htf, hds]; unfold total_size toU32 sizeofWAVHeader
        decide)
  rw [htf, hds] at hq
  refine ⟨?_, ?_⟩
  · rw [hq.1]; unfold toI32 total_size sizeofWAVHeader; decide
  · have e : 44 + 2 * (44100 * Int.toNat 2) = 176444 := by decide
    rw [hq.2, e]

/-- The request with sample rate -1 and no frames into a 44-byte destination. -/
theorem negative_rate_request :
    (nsf_to_wav silentWorld loadedSession 1 0 0 (-1) 2 44).ret = 44 := by
  have htf : total_frames 0 0 (-1) = 0 := by
    unfold total_frames toU64 toI32; decide
  have hds : data_size 0 2 = 0 := by
    unfold data_size toU64; decide
  have hq := nsf_to_wav_quiet silentWorld silentWorld_quiet loadedSession _ _
    loadedSession_nsf loadedSession_player 1 0 0 (-1) 2 44 (Or.inr rfl)
    (by decide)
    (by rw [htf, hds]; unfold total_size toU32 sizeofWAVHeader
        decide)
  rw [htf, hds] at hq
  rw [hq.1]; unfold toI32 total_size sizeofWAVHeader; decide

theorem faulty_setup (s : Session) (tr r ch : Int) :
    (callPlayerSeq faultyWorld s (setupOps tr r ch)).2 = false := by
  apply callPlayerSeq_no_raise
  intro s op hop
  simp only [setupOps, List.mem_cons, List.mem_singleton, List.not_mem_nil, or_false] at hop
  rcases hop with h | h | h | h | h <;> subst h <;> rfl

/-- With the faulty engine a loop over 5000 frames renders one full chunk and
raises in the second. -/
theorem faulty_loop (s : Session) (buf : SampleBuf) (ptr : Nat) (written : List Write) :
    (renderLoop faultyWorld 1 s buf ptr 5000 written).threw = true := by
  have n1 : frames_to_render 5000 = 4096 := by rw [frames_to_render_eq]; decide
  have n2 : frames_to_render 904 = 904 := by rw [frames_to_render_eq]; decide
  have c1 : callPlayer faultyWorld s (EngineOp.Render (frames_to_render 5000))
      = ((callPlayer faultyWorld s (EngineOp.Render (frames_to_render 5000))).1, false) := by
    apply Prod.ext
    · rfl
    · rw [callPlayer_snd, n1]; rfl
  rw [renderLoop_chunk faultyWorld 1 (Or.inl rfl) s _ buf ptr 5000 written (by decide)
    (by decide) c1]
  have e : 5000 - min 5000 4096 = 904 := by decide
  rw [e]
  generalize (callPlayer faultyWorld s (EngineOp.Render (frames_to_render 5000))).1 = s1
  have c2 : callPlayer faultyWorld s1 (EngineOp.Render (frames_to_render 904))
      = ((callPlayer faultyWorld s1 (EngineOp.Render (frames_to_render 904))).1, true) := by
    apply Prod.ext
    · rfl
    · rw [callPlayer_snd, n2]; rfl
  rw [renderLoop_raise faultyWorld 1 s1 _ _ _ 904 _ (by decide) c2]

theorem faulty_frames : total_frames 5000 0 1000 = 5000 := by
  unfold total_frames toU64 toI32; decide

theorem faulty_capacity : total_size (data_size (total_frames 5000 0 1000) 1) ≤ toU32 20000 := by
  rw [faulty_frames]
  unfold total_size data_size toU64 toU32 sizeofWAVHeader
  decide

/-- Once the request is accepted and a `Render` raises in the chunk loop, the
call returns 0 and the destination starts with the complete header. -/
theorem render_error_outcome (W : World) (s : Session) (nsf : NSF) (p : NSFPlayer)
    (hn : s.g_nsf = some nsf) (hp : s.g_player = some p) (tr l f r ch bs : Int)
    (hch : 1 ≤ ch ∧ ch ≤ 2) (htr : 1 ≤ tr ∧ tr ≤ nsf.total_songs)
    (hsetup : (callPlayerSeq W s (setupOps tr r ch)).2 = false)
    (hsz : total_size (data_size (total_frames l f r) ch) ≤ toU32 bs)
    (hraise : (renderLoop W ch (callPlayerSeq W s (setupOps tr r ch)).1 W.freshBuffer
      sizeofWAVHeader (total_frames l f r)
      (writeHeader r ch (total_size (data_size (total_frames l f r) ch))
        (data_size (total_frames l f r) ch))).threw = true)
    (dest : Mem) :
    (nsf_to_wav W s tr l f r ch bs).ret = 0 ∧
    (List.range 44).map (applyWrites dest (nsf_to_wav W s tr l f r ch bs).writes)
      = canonicalHeader r ch (data_size (total_frames l f r) ch) := by
  have hch2 : ch = 1 ∨ ch = 2 := by omega
  have hseq : callPlayerSeq W s (setupOps tr r ch)
      = ((callPlayerSeq W s (setupOps tr r ch)).1, false) := by
    rw [← hsetup]
  rw [nsf_to_wav_accepted W s nsf p hn hp tr l f r ch bs hch2 htr _ hseq hsz]
  simp only [hraise, if_true, true_and]
  have hds : data_size (total_frames l f r) ch < 4294967296 := by
    unfold data_size; omega
  have := header_region W ch hch2 (callPlayerSeq W s (setupOps tr r ch)).1 W.freshBuffer
    (total_frames l f r) (total_frames_lt l f r) r
    (total_size (data_size (total_frames l f r) ch)) (data_size (total_frames l f r) ch) dest
  simp only [sizeofWAVHeader]
  rw [this, writeHeader_bytes r ch hch2 _ hds]

theorem cleanup_eq (s : Session) : cleanup s = Session.uninitialized := by
  obtain ⟨n, p, c⟩ := s
  cases n <;> cases p <;> cases c <;> rfl

theorem init_nsf_player_nsf (W : World) (s : Session) :
    (init_nsf_player W s).2.g_nsf = some W.newNSF := by
  unfold init_nsf_player
  simp only [callPlayer]
  generalize W.throws _ _ = b
  cases b <;> rfl

theorem init_nsf_player_ret (W : World) (s : Session) :
    (init_nsf_player W s).1 = 0 ∨ (init_nsf_player W s).1 = 1 := by
  unfold init_nsf_player
  simp only [callPlayer]
  generalize W.throws _ _ = b
  cases b
  · exact Or.inr rfl
  · exact Or.inl rfl

theorem loadTry_nsf (W : World) (s1 : Session) (data : List Nat) (fopen_ok : Bool)
    (h : s1.g_nsf.isSome = true) :
    ((loadTry W s1 data fopen_ok).1 = 0 ∨ (loadTry W s1 data fopen_ok).1 = 1) ∧
      (loadTry W s1 data fopen_ok).2.g_nsf.isSome = true := by
  unfold loadTry
  cases hn : s1.g_nsf with
  | none => rw [hn] at h; simp at h
  | some nsf =>
    simp only
    cases fopen_ok with
    | false => simp [hn]
    | true =>
      simp only [Bool.not_true, Bool.false_eq_true, if_false]
      rcases hL : W.LoadFile nsf data with ⟨o, nsf1⟩
      cases o with
      | threw => simp
      | returned b =>
        cases b with
        | false => simp
        | true =>
          simp only [callPlayer]
          generalize W.throws _ _ = t
          generalize W.LoadOk _ = k
          cases t <;> cases k <;> simp

/-- After `load_nsf_data`, whatever it returns, `g_nsf` is not null, and the
return value is 0 or 1. -/
theorem load_nsf_data_nsf (W : World) (s : Session) (data : List Nat) (fopen_ok : Bool) :
    ((load_nsf_data W s data fopen_ok).1 = 0 ∨ (load_nsf_data W s data fopen_ok).1 = 1) ∧
      (load_nsf_data W s data fopen_ok).2.g_nsf.isSome = true := by
  unfold load_nsf_data
  have hentry : (if (s.g_nsf.isNone || s.g_player.isNone) = true then init_nsf_player W s
      else ((1 : Int), s)).2.g_nsf.isSome = true := by
    split
    · rw [init_nsf_player_nsf]; rfl
    · rename_i hc
      cases hn : s.g_nsf with
      | none => simp [hn] at hc
      | some v => rfl
  generalize (if (s.g_nsf.isNone || s.g_player.isNone) = true then init_nsf_player W s
      else ((1 : Int), s)) = e at hentry
  simp only
  split
  · exact ⟨Or.inl rfl, hentry⟩
  · exact loadTry_nsf W e.2 data fopen_ok hentry

theorem get_nsf_info_ret (s : Session) :
    (get_nsf_info s).1 = if s.g_nsf.isSome then 1 else 0 := by
  unfold get_nsf_info
  cases s.g_nsf <;> rfl

theorem logged_nil (s : Session) : logged s [] = s := by
  obtain ⟨n, p, c⟩ := s
  cases p <;> simp [logged]

theorem logged_logged (s : Session) (a b : List EngineOp) :
    logged (logged s a) b = logged s (a ++ b) := by
  obtain ⟨n, p, c⟩ := s
  cases p <;> simp [logged]

theorem callPlayer_fst (W : World) (s : Session) (op : EngineOp) :
    (callPlayer W s op).1 = logged s [op] := rfl

/-- The calls of a `try` block that ran to its end are all recorded, in order. -/
theorem callPlayerSeq_logged (W : World) (ops : List EngineOp) : ∀ s : Session,
    (callPlayerSeq W s ops).2 = false → (callPlayerSeq W s ops).1 = logged s ops := by
  induction ops with
  | nil => intro s _; simp [callPlayerSeq, logged_nil]
  | cons op ops ih =>
    intro s h
    rcases hc : callPlayer W s op with ⟨s1, b⟩
    have h1 : s1 = logged s [op] := by
      have := callPlayer_fst W s op
      rw [hc] at this
      exact this
    cases b with
    | true => simp [callPlayerSeq, hc] at h
    | false =>
      simp only [callPlayerSeq, hc] at h ⊢
      rw [ih s1 h, h1, logged_logged]
      rfl

theorem chunkSizes_zero : chunkSizes 0 = [] := by decide

theorem chunkSizes_pos (r : Nat) (h : 0 < r) :
    chunkSizes r = min r 4096 :: chunkSizes (r - min r 4096) := by
  unfold chunkSizes
  by_cases hr : 4096 ≤ r
  · have h1 : min r 4096 = 4096 := by omega
    have h2 : r / 4096 = (r - 4096) / 4096 + 1 := by omega
    have h3 : (r - 4096) % 4096 = r % 4096 := by omega
    rw [h1, h2, h3, List.replicate_succ]
    rfl
  · have h1 : min r 4096 = r := by omega
    have h2 : r / 4096 = 0 := by omega
    have h3 : r % 4096 = r := by omega
    have h4 : r ≠ 0 := by omega
    rw [h1, h2, h3, Nat.sub_self]
    simp [h4]

/-- The `Render` calls of the chunk loop: a prefix of the chunks of the frame
count, all of them when no call raised. -/
theorem renderLoop_log (W : World) (channels : Int) (r : Nat) :
    ∀ (s : Session) (buf : SampleBuf) (ptr : Nat) (written : List Write),
      r < 18446744073709551616 →
      ∃ reqs, reqs <+: chunkSizes r ∧
        (renderLoop W channels s buf ptr r written).session = logged s (renderCalls reqs) ∧
        ((renderLoop W channels s buf ptr r written).threw = false → reqs = chunkSizes r) := by
  induction r using Nat.strong_induction_on with
  | _ r ih =>
    intro s buf ptr written hr
    rcases Nat.eq_zero_or_pos r with h0 | hpos
    · subst h0
      refine ⟨[], List.nil_prefix, ?_, fun _ => chunkSizes_zero.symm⟩
      rw [renderLoop_zero]
      exact (logged_nil s).symm
    · rcases hcall : callPlayer W s (EngineOp.Render (frames_to_render r)) with ⟨s1, b⟩
      have hs1 : s1 = logged s [EngineOp.Render ((min r 4096 : Nat) : Int)] := by
        have := callPlayer_fst W s (EngineOp.Render (frames_to_render r))
        rw [hcall, frames_to_render_eq] at this
        exact this
      cases b with
      | true =>
        rw [renderLoop_raise W channels s s1 buf ptr r written hpos hcall]
        refine ⟨[min r 4096], ?_, ?_, ?_⟩
        · rw [chunkSizes_pos r hpos]
          exact List.prefix_cons_inj _ |>.mpr List.nil_prefix
        · exact hs1
        · intro h; simp at h
      | false =>
        rw [renderLoop_step W channels s s1 buf ptr r written hpos hcall, remaining_step r hr]
        have hlt : r - min r 4096 < r := by omega
        obtain ⟨reqs, hpre, hlog, hall⟩ := ih (r - min r 4096) hlt s1
          (W.Render s buf (frames_to_render r)).1
          (ptr + 2 * (toI32 (frames_to_render r * channels)).toNat)
          (written ++ copySamples (W.Render s buf (frames_to_render r)).1 ptr
            (toI32 (frames_to_render r * channels)).toNat) (by omega)
        refine ⟨min r 4096 :: reqs, ?_, ?_, ?_⟩
        · rw [chunkSizes_pos r hpos]
          exact List.prefix_cons_inj _ |>.mpr hpre
        · rw [hlog, hs1, logged_logged]
          rfl
        · intro h
          rw [hall h, ← chunkSizes_pos r hpos]

theorem chunkSizes_length (r : Nat) : (chunkSizes r).length = (r + 4095) / 4096 := by
  unfold chunkSizes
  rw [List.length_append, List.length_replicate]
  split <;> simp <;> omega

theorem chunkSizes_sum (r : Nat) : (chunkSizes r).sum = r := by
  unfold chunkSizes
  rw [List.sum_append, List.sum_replicate]
  split <;> simp <;> omega

theorem chunkSizes_get (r : Nat) : ∀ i : Nat,
    (chunkSizes r)[i]? = if 4096 * i < r then some (min (r - 4096 * i) 4096) else none := by
  induction r using Nat.strong_induction_on with
  | _ r ih =>
    intro i
    rcases Nat.eq_zero_or_pos r with h0 | hpos
    · subst h0; simp [chunkSizes_zero]
    · rw [chunkSizes_pos r hpos]
      cases i with
      | zero => simp [hpos]
      | succ j =>
        rw [List.getElem?_cons_succ, ih (r - min r 4096) (by omega) j]
        by_cases hr : 4096 ≤ r
        · have h1 : min r 4096 = 4096 := by omega
          rw [h1]
          by_cases hj : 4096 * (j + 1) < r
          · have : 4096 * j < r - 4096 := by omega
            have e : r - 4096 - 4096 * j = r - 4096 * (j + 1) := by omega
            rw [if_pos this, if_pos hj, e]
          · have : ¬ 4096 * j < r - 4096 := by omega
            rw [if_neg this, if_neg hj]
        · have h1 : min r 4096 = r := by omega
          have : ¬ 4096 * j < r - r := by omega
          have hj : ¬ 4096 * (j + 1) < r := by omega
          rw [h1, if_neg this, if_neg hj]

theorem chunkSizes_bounds (r : Nat) : ∀ n ∈ chunkSizes r, 1 ≤ n ∧ n ≤ 4096 := by
  intro n hn
  unfold chunkSizes at hn
  rw [List.mem_append] at hn
  rcases hn with h | h
  · have := List.eq_of_mem_replicate h
    omega
  · split at h
    · simp at h
    · simp at h
      omega

/-- The call of `nsf_render_audio` with a player, a collection object, a
destination and a positive frame count. -/
theorem nsf_render_audio_call (W : World) (s : Session) (p : NSFPlayer) (nsf : NSF)
    (hp : s.g_player = some p) (hn : s.g_nsf = some nsf) (tr fc : Int) (buf : SampleBuf)
    (hfc : 0 < fc) :
    nsf_render_audio W s tr fc (some buf) =
      (if W.throws s (EngineOp.Render fc) then 0 else toI32 (toU32 (W.Render s buf fc).2),
       some (W.Render s buf fc).1, logged s [EngineOp.Render fc]) := by
  have h : ¬ fc ≤ 0 := by omega
  unfold nsf_render_audio
  simp only [hp, hn, h, if_false, callPlayer]
  cases ht : W.throws s (EngineOp.Render fc) <;> simp [logged, hp, hn]

/-- A request that passes the parameter checks and the configuration calls
but fails the capacity check of source line 194. -/
theorem nsf_to_wav_too_small (W : World) (s : Session) (nsf : NSF) (p : NSFPlayer)
    (hn : s.g_nsf = some nsf) (hp : s.g_player = some p) (tr l f r ch bs : Int)
    (hch : 1 ≤ ch ∧ ch ≤ 2) (htr : 1 ≤ tr ∧ tr ≤ nsf.total_songs)
    (hsetup : (callPlayerSeq W s (setupOps tr r ch)).2 = false)
    (hrej : toU32 bs < total_size (data_size (total_frames l f r) ch)) :
    nsf_to_wav W s tr l f r ch bs = ⟨0, [], logged s (setupOps tr r ch)⟩ := by
  have h1 : ¬ (ch < 1 ∨ ch > 2) := by omega
  have h2 : ¬ (tr < 1 ∨ tr > nsf.total_songs) := by omega
  have h3 : total_size (data_size (total_frames l f r) ch) > toU32 bs := hrej
  have hseq : callPlayerSeq W s (setupOps tr r ch)
      = (logged s (setupOps tr r ch), false) := by
    rw [← callPlayerSeq_logged W _ s hsetup, ← hsetup]
  unfold nsf_to_wav
  simp only [hn, hp, h1, h2, h3, hseq, if_false, if_true]

theorem callPlayerSeq_count (W : World) (g : Session → SampleBuf → Int → Int)
    (ops : List EngineOp) : ∀ s : Session,
    callPlayerSeq (withRenderCount W g) s ops = callPlayerSeq W s ops := by
  induction ops with
  | nil => intro s; rfl
  | cons op ops ih =>
    intro s
    have hc : callPlayer (withRenderCount W g) s op = callPlayer W s op := rfl
    simp only [callPlayerSeq, hc]
    rcases callPlayer W s op with ⟨s1, b⟩
    cases b
    · exact ih s1
    · rfl

/-- The chunk loop does not look at the frame counts `Render` reports. -/
theorem renderLoop_count (W : World) (g : Session → SampleBuf → Int → Int) (channels : Int)
    (r : Nat) : ∀ (s : Session) (buf : SampleBuf) (ptr : Nat) (written : List Write),
      renderLoop (withRenderCount W g) channels s buf ptr r written
        = renderLoop W channels s buf ptr r written := by
  induction r using Nat.strong_induction_on with
  | _ r ih =>
    intro s buf ptr written
    rcases Nat.eq_zero_or_pos r with h0 | hpos
    · subst h0; rw [renderLoop_zero, renderLoop_zero]
    · have hlt : toU64 ((r : Int) - frames_to_render r) < r := by
        rw [frames_to_render_eq]; unfold toU64; omega
      rcases hcall : callPlayer W s (EngineOp.Render (frames_to_render r)) with ⟨s1, b⟩
      have hcall2 : callPlayer (withRenderCount W g) s (EngineOp.Render (frames_to_render r))
          = (s1, b) := hcall
      cases b with
      | true =>
        rw [renderLoop_raise W channels s s1 buf ptr r written hpos hcall,
          renderLoop_raise (withRenderCount W g) channels s s1 buf ptr r written hpos hcall2]
      | false =>
        rw [renderLoop_step W channels s s1 buf ptr r written hpos hcall,
          renderLoop_step (withRenderCount W g) channels s s1 buf ptr r written hpos hcall2]
        exact ih _ hlt _ _ _ _

theorem nsf_to_wav_count (W : World) (g : Session → SampleBuf → Int → Int) (s : Session)
    (tr l f r ch bs : Int) :
    nsf_to_wav (withRenderCount W g) s tr l f r ch bs = nsf_to_wav W s tr l f r ch bs := by
  unfold nsf_to_wav
  simp only [callPlayerSeq_count, renderLoop_count]
  rfl

/-- Without wrap-around, `total_frames` is the floor of the exact quotient. -/
theorem total_frames_exact (l f r : Int) (hl : 0 ≤ l) (hf : 0 ≤ f)
    (hsum : l + f ≤ 2147483647) (hr0 : 0 ≤ r) (hr1 : r ≤ 2147483647) :
    (total_frames l f r : Int) = (l + f) * r / 1000 := by
  have h1 : toU64 (toI32 (l + f)) = (l + f).toNat := by
    unfold toU64 toI32; omega
  have h2 : toU64 r = r.toNat := by
    unfold toU64; omega
  have ha : (l + f).toNat ≤ 2147483647 := by omega
  have hb : r.toNat ≤ 2147483647 := by omega
  have hprod : (l + f).toNat * r.toNat ≤ 2147483647 * 2147483647 := Nat.mul_le_mul ha hb
  have hlt : (l + f).toNat * r.toNat < 18446744073709551616 := by omega
  unfold total_frames
  rw [h1, h2, Nat.mod_eq_of_lt hlt]
  push_cast
  rw [Int.toNat_of_nonneg (by omega), Int.toNat_of_nonneg hr0]

/-- The session right after `init_nsf_player`. -/
theorem init_nsf_player_created (W : World) (s0 : Session) :
    (init_nsf_player W s0).2.g_nsf = some W.newNSF ∧
      (init_nsf_player W s0).2.g_player = some ⟨[EngineOp.SetConfig]⟩ := by
  refine ⟨init_nsf_player_nsf W s0, ?_⟩
  unfold init_nsf_player
  simp only [callPlayer]
  generalize W.throws _ _ = b
  cases b <;> rfl

theorem toU64_one : toU64 1 = 1 := by unfold toU64; decide

theorem toU64_two : toU64 2 = 2 := by unfold toU64; decide

/-- The size arithmetic of an accepted request that fits a 32-bit signed
capacity: nothing wraps. -/
theorem sizes_exact (T : Nat) (ch bs : Int) (hch : ch = 1 ∨ ch = 2)
    (hbs : 0 ≤ bs ∧ bs ≤ 2147483647) (hcap : 44 + (T : Int) * ch * 2 ≤ bs) :
    total_size (data_size T ch) ≤ toU32 bs ∧
      toI32 (total_size (data_size T ch)) = 44 + (T : Int) * ch * 2 ∧
      44 + 2 * (T * ch.toNat) = (44 + (T : Int) * ch * 2).toNat := by
  unfold total_size sizeofWAVHeader data_size toU32 toI32
  rcases hch with h | h <;> subst h
  · have e : Int.toNat 1 = 1 := by decide
    rw [toU64_one, e]
    refine ⟨?_, ?_, ?_⟩ <;> omega
  · have e : Int.toNat 2 = 2 := by decide
    rw [toU64_two, e]
    refine ⟨?_, ?_, ?_⟩ <;> omega

theorem renderedSamples_zero (W : World) (channels : Int) (s : Session) (buf : SampleBuf)
    (copied : List Int) : renderedSamples W channels s buf 0 copied = copied := by
  rw [renderedSamples]; simp

theorem renderedSamples_pos (W : World) (channels : Int) (s : Session) (buf : SampleBuf)
    (r : Nat) (copied : List Int) (h : 0 < r) :
    renderedSamples W channels s buf r copied =
      match callPlayer W s (EngineOp.Render (frames_to_render r)) with
      | (_, true) => copied
      | (s1, false) =>
        renderedSamples W channels s1 (W.Render s buf (frames_to_render r)).1
          (toU64 ((r : Int) - frames_to_render r))
          (copied ++ (List.range (toI32 (frames_to_render r * channels)).toNat).map
            (W.Render s buf (frames_to_render r)).1) := by
  rw [renderedSamples]; simp [h]

theorem renderedSamples_raise (W : World) (channels : Int) (s s1 : Session) (buf : SampleBuf)
    (r : Nat) (copied : List Int) (h : 0 < r)
    (hc : callPlayer W s (EngineOp.Render (frames_to_render r)) = (s1, true)) :
    renderedSamples W channels s buf r copied = copied := by
  rw [renderedSamples_pos W channels s buf r copied h, hc]

theorem renderedSamples_chunk (W : World) (channels : Int) (hch : channels = 1 ∨ channels = 2)
    (s s1 : Session) (buf : SampleBuf) (r : Nat) (copied : List Int) (h : 0 < r)
    (hr : r < 18446744073709551616)
    (hc : callPlayer W s (EngineOp.Render (frames_to_render r)) = (s1, false)) :
    renderedSamples W channels s buf r copied =
      renderedSamples W channels s1 (W.Render s buf (frames_to_render r)).1
        (r - min r 4096)
        (copied ++ (List.range (min r 4096 * channels.toNat)).map
          (W.Render s buf (frames_to_render r)).1) := by
  rw [renderedSamples_pos W channels s buf r copied h, hc, chunk_count r channels hch,
    remaining_step r hr]

theorem leField_two (x : Int) : leField 2 x = [toU8 x, toU8 (x / 256)] := by
  have e : leField 2 x = [(x / 1 % 256).toNat, (x / 256 % 256).toNat] := rfl
  rw [e]
  unfold toU8
  simp

theorem copySamples_bytes (buf : SampleBuf) (ptr count : Nat) :
    (copySamples buf ptr count).map Prod.snd
      = ((List.range count).map buf).flatMap (leField 2) := by
  unfold copySamples
  induction count with
  | zero => simp
  | succ n ih =>
    rw [List.range_succ, List.flatMap_append, List.map_append, ih, List.map_append,
      List.flatMap_append]
    simp [leField_two]

/-- The bytes the chunk loop stores are the samples it copies, each as two
bytes, low byte first; when no `Render` raised there is one sample per channel
of every frame. -/
theorem renderLoop_samples (W : World) (channels : Int) (hch : channels = 1 ∨ channels = 2)
    (r : Nat) : ∀ (s : Session) (buf : SampleBuf) (ptr : Nat) (written : List Write)
      (copied : List Int), r < 18446744073709551616 →
      ∃ ws S, (renderLoop W channels s buf ptr r written).writes = written ++ ws ∧
        renderedSamples W channels s buf r copied = copied ++ S ∧
        ws.map Prod.snd = S.flatMap (leField 2) ∧
        ((renderLoop W channels s buf ptr r written).threw = false →
          S.length = r * channels.toNat) := by
  induction r using Nat.strong_induction_on with
  | _ r ih =>
    intro s buf ptr written copied hr
    rcases Nat.eq_zero_or_pos r with h0 | hpos
    · subst h0
      exact ⟨[], [], by simp [renderLoop_zero], by simp [renderedSamples_zero], by simp,
        fun _ => by simp⟩
    · rcases hcall : callPlayer W s (EngineOp.Render (frames_to_render r)) with ⟨s1, b⟩
      cases b with
      | true =>
        rw [renderLoop_raise W channels s s1 buf ptr r written hpos hcall,
          renderedSamples_raise W channels s s1 buf r copied hpos hcall]
        exact ⟨[], [], by simp, by simp, by simp, by simp⟩
      | false =>
        rw [renderLoop_chunk W channels hch s s1 buf ptr r written hpos hr hcall,
          renderedSamples_chunk W channels hch s s1 buf r copied hpos hr hcall]
        have hlt : r - min r 4096 < r := by omega
        obtain ⟨ws, S, hws, hS, hbytes, hlen⟩ :=
          ih (r - min r 4096) hlt s1 (W.Render s buf (frames_to_render r)).1
            (ptr + 2 * (min r 4096 * channels.toNat))
            (written ++ copySamples (W.Render s buf (frames_to_render r)).1 ptr
              (min r 4096 * channels.toNat))
            (copied ++ (List.range (min r 4096 * channels.toNat)).map
              (W.Render s buf (frames_to_render r)).1) (by omega)
        have htot := chunk_total r channels.toNat
        refine ⟨copySamples (W.Render s buf (frames_to_render r)).1 ptr
            (min r 4096 * channels.toNat) ++ ws,
          (List.range (min r 4096 * channels.toNat)).map
            (W.Render s buf (frames_to_render r)).1 ++ S, ?_, ?_, ?_, ?_⟩
        · rw [hws, List.append_assoc]
        · rw [hS, List.append_assoc]
        · rw [List.map_append, copySamples_bytes, hbytes, List.flatMap_append]
        · intro hthrew
          have := hlen hthrew
          rw [List.length_append, List.length_map, List.length_range, this]
          omega

/-- Reading consecutive byte pairs that hold the little-endian fields of a
list of samples. -/
theorem pairs_lookup (m : Mem) (S : List Int) : ∀ (a : Nat),
    (List.range' a (2 * S.length)).map m = S.flatMap (leField 2) →
    ∀ (k : Nat) (x : Int), S[k]? = some x →
      m (a + 2 * k) = toU8 x ∧ m (a + 2 * k + 1) = toU8 (x / 256) := by
  induction S with
  | nil => intro a _ k x hk; simp at hk
  | cons y S ih =>
    intro a h k x hk
    have e : 2 * (y :: S).length = 2 * S.length + 1 + 1 := by simp; omega
    rw [e, List.range'_succ, List.range'_succ, List.flatMap_cons, leField_two] at h
    simp only [List.map_cons, List.cons_append, List.nil_append, List.cons.injEq] at h
    obtain ⟨h0, h1, hrest⟩ := h
    cases k with
    | zero =>
      simp only [List.getElem?_cons_zero, Option.some.injEq] at hk
      subst hk
      exact ⟨h0, h1⟩
    | succ j =>
      rw [List.getElem?_cons_succ] at hk
      have := ih (a + 1 + 1) hrest j x hk
      have e1 : a + 2 * (j + 1) = a + 1 + 1 + 2 * j := by omega
      rw [e1]
      exact this

theorem decodeS16_bytes (x : Int) (h0 : -32768 ≤ x) (h1 : x ≤ 32767) :
    decodeS16 (toU8 x) (toU8 (x / 256)) = x := by
  unfold decodeS16 toU8
  split <;> omega

/-- The payload of a call that returned non-zero: the samples copied by the
chunk loop, two bytes each, from offset 44. -/
theorem payload_after_success (W : World) (s : Session) (tr l f r ch bs : Int) (dest : Mem)
    (hok : (nsf_to_wav W s tr l f r ch bs).ret ≠ 0) :
    (renderedSamples W ch (callPlayerSeq W s (setupOps tr r ch)).1 W.freshBuffer
        (total_frames l f r) []).length = total_frames l f r * ch.toNat ∧
    (List.range' 44 (2 * (renderedSamples W ch (callPlayerSeq W s (setupOps tr r ch)).1
        W.freshBuffer (total_frames l f r) []).length)).map
        (applyWrites dest (nsf_to_wav W s tr l f r ch bs).writes)
      = (renderedSamples W ch (callPlayerSeq W s (setupOps tr r ch)).1 W.freshBuffer
          (total_frames l f r) []).flatMap (leField 2) := by
  obtain ⟨hch, _, s1, hseq, hthrew, heq⟩ := nsf_to_wav_nonzero W s tr l f r ch bs hok
  have hs1 : (callPlayerSeq W s (setupOps tr r ch)).1 = s1 := by rw [hseq]
  rw [heq, hs1]
  simp only [sizeofWAVHeader] at hthrew ⊢
  obtain ⟨ws, S, hws, hS, hbytes, hlen⟩ :=
    renderLoop_samples W ch hch (total_frames l f r) s1 W.freshBuffer 44
      (writeHeader r ch (total_size (data_size (total_frames l f r) ch))
        (data_size (total_frames l f r) ch)) [] (total_frames_lt l f r)
  obtain ⟨ws2, hws2, k, _, hoff, hfull⟩ :=
    renderLoop_offsets W ch hch (total_frames l f r) s1 W.freshBuffer 44
      (writeHeader r ch (total_size (data_size (total_frames l f r) ch))
        (data_size (total_frames l f r) ch)) (total_frames_lt l f r)
  have hsame : ws2 = ws := by
    rw [hws] at hws2
    exact (List.append_cancel_left hws2).symm
  subst hsame
  have hk := hfull hthrew
  have hSlen := hlen hthrew
  rw [List.nil_append] at hS
  have hwlen : ws2.length = 2 * S.length := by
    have := congrArg List.length hoff
    rw [List.length_map, List.length_range'] at this
    rw [this, hk, hSlen]
  rw [hS, hws, applyWrites_append]
  refine ⟨hSlen, ?_⟩
  rw [← hwlen, ← hbytes]
  apply applyWrites_run
  rw [hoff]
  congr 1
  rw [hwlen, hk, hSlen]

theorem logged_render (s : Session) (m : Nat) (l : List Nat) :
    logged (logged s [EngineOp.Render ((m : Nat) : Int)]) (renderCalls l)
      = logged s (renderCalls (m :: l)) := by
  rw [logged_logged]
  rfl

/-- The chunk loop against the engine: `done` lists the frame counts of the
`Render` calls that returned, in order. Each of them was a call the engine did
not raise in; when the loop ran to its end they are all the chunks of the frame
count; when it ended in a raise, the raising call is the next chunk, and it is
the last call recorded. -/
theorem renderLoop_calls (W : World) (channels : Int) (r : Nat) :
    ∀ (s : Session) (buf : SampleBuf) (ptr : Nat) (written : List Write),
      r < 18446744073709551616 →
      ∃ done : List Nat,
        (∀ (i n : Nat), done[i]? = some n →
          W.throws (logged s (renderCalls (done.take i))) (EngineOp.Render (n : Int)) = false) ∧
        ((renderLoop W channels s buf ptr r written).threw = false →
          done = chunkSizes r ∧
          (renderLoop W channels s buf ptr r written).session = logged s (renderCalls done)) ∧
        ((renderLoop W channels s buf ptr r written).threw = true →
          ∃ n : Nat, (done ++ [n]) <+: chunkSizes r ∧
            (renderLoop W channels s buf ptr r written).session
              = logged s (renderCalls (done ++ [n])) ∧
            W.throws (logged s (renderCalls done)) (EngineOp.Render (n : Int)) = true) := by
  induction r using Nat.strong_induction_on with
  | _ r ih =>
    intro s buf ptr written hr
    rcases Nat.eq_zero_or_pos r with h0 | hpos
    · subst h0
      refine ⟨[], ?_, ?_, ?_⟩
      · intro i n h; simp at h
      · intro _
        rw [renderLoop_zero]
        exact ⟨chunkSizes_zero.symm, (logged_nil s).symm⟩
      · intro h; rw [renderLoop_zero] at h; simp at h
    · rcases hcall : callPlayer W s (EngineOp.Render (frames_to_render r)) with ⟨s1, b⟩
      have hs1 : s1 = logged s [EngineOp.Render ((min r 4096 : Nat) : Int)] := by
        have := callPlayer_fst W s (EngineOp.Render (frames_to_render r))
        rw [hcall, frames_to_render_eq] at this
        exact this
      have hb : W.throws s (EngineOp.Render ((min r 4096 : Nat) : Int)) = b := by
        have := callPlayer_snd W s (EngineOp.Render (frames_to_render r))
        rw [hcall, frames_to_render_eq] at this
        exact this.symm
      cases b with
      | true =>
        rw [renderLoop_raise W channels s s1 buf ptr r written hpos hcall]
        refine ⟨[], ?_, ?_, ?_⟩
        · intro i n h; simp at h
        · intro h; simp at h
        · intro _
          refine ⟨min r 4096, ?_, ?_, ?_⟩
          · rw [chunkSizes_pos r hpos]
            exact List.prefix_cons_inj _ |>.mpr List.nil_prefix
          · exact hs1
          · rw [show renderCalls [] = [] from rfl, logged_nil]
            exact hb
      | false =>
        rw [renderLoop_step W channels s s1 buf ptr r written hpos hcall, remaining_step r hr]
        have hlt : r - min r 4096 < r := by omega
        obtain ⟨done, hret, hall, hraise⟩ := ih (r - min r 4096) hlt s1
          (W.Render s buf (frames_to_render r)).1
          (ptr + 2 * (toI32 (frames_to_render r * channels)).toNat)
          (written ++ copySamples (W.Render s buf (frames_to_render r)).1 ptr
            (toI32 (frames_to_render r * channels)).toNat) (by omega)
        refine ⟨min r 4096 :: done, ?_, ?_, ?_⟩
        · intro i n h
          cases i with
          | zero =>
            simp only [List.getElem?_cons_zero, Option.some.injEq] at h
            subst h
            rw [List.take_zero, show renderCalls [] = [] from rfl, logged_nil]
            exact hb
          | succ j =>
            rw [List.getElem?_cons_succ] at h
            have := hret j n h
            rw [hs1, logged_render] at this
            rw [List.take_succ_cons]
            exact this
        · intro h
          obtain ⟨h1, h2⟩ := hall h
          refine ⟨?_, ?_⟩
          · rw [h1, ← chunkSizes_pos r hpos]
          · rw [h2, hs1, logged_render]
        · intro h
          obtain ⟨n, h1, h2, h3⟩ := hraise h
          refine ⟨n, ?_, ?_, ?_⟩
          · rw [chunkSizes_pos r hpos, List.cons_append]
            exact List.prefix_cons_inj _ |>.mpr h1
          · rw [h2, hs1, logged_render, List.cons_append]
          · rw [hs1, logged_render] at h3
            exact h3

/-- The chunk loop with its stores: besides the calls of `renderLoop_calls`,
the samples copied are those of the chunks whose `Render` returned, one per
channel of every frame, and the loop stores them, two bytes each, at
consecutive offsets from `data_ptr`. -/
theorem renderLoop_trace (W : World) (channels : Int) (hch : channels = 1 ∨ channels = 2)
    (r : Nat) : ∀ (s : Session) (buf : SampleBuf) (ptr : Nat) (written : List Write)
      (copied : List Int), r < 18446744073709551616 →
      ∃ (done : List Nat) (S : List Int) (ws : List Write),
        (renderLoop W channels s buf ptr r written).writes = written ++ ws ∧
        renderedSamples W channels s buf r copied = copied ++ S ∧
        ws.map Prod.snd = S.flatMap (leField 2) ∧
        ws.map Prod.fst = List.range' ptr (2 * S.length) ∧
        S.length = done.sum * channels.toNat ∧
        (∀ (i n : Nat), done[i]? = some n →
          W.throws (logged s (renderCalls (done.take i))) (EngineOp.Render (n : Int)) = false) ∧
        ((renderLoop W channels s buf ptr r written).threw = false →
          done = chunkSizes r ∧
          (renderLoop W channels s buf ptr r written).session = logged s (renderCalls done)) ∧
        ((renderLoop W channels s buf ptr r written).threw = true →
          ∃ n : Nat, (done ++ [n]) <+: chunkSizes r ∧
            (renderLoop W channels s buf ptr r written).session
              = logged s (renderCalls (done ++ [n])) ∧
            W.throws (logged s (renderCalls done)) (EngineOp.Render (n : Int)) = true) := by
  induction r using Nat.strong_induction_on with
  | _ r ih =>
    intro s buf ptr written copied hr
    rcases Nat.eq_zero_or_pos r with h0 | hpos
    · subst h0
      refine ⟨[], [], [], by simp [renderLoop_zero], by simp [renderedSamples_zero], by simp,
        by simp, by simp, ?_, ?_, ?_⟩
      · intro i n h; simp at h
      · intro _
        rw [renderLoop_zero]
        exact ⟨chunkSizes_zero.symm, (logged_nil s).symm⟩
      · intro h; rw [renderLoop_zero] at h; simp at h
    · rcases hcall : callPlayer W s (EngineOp.Render (frames_to_render r)) with ⟨s1, b⟩
      have hs1 : s1 = logged s [EngineOp.Render ((min r 4096 : Nat) : Int)] := by
        have := callPlayer_fst W s (EngineOp.Render (frames_to_render r))
        rw [hcall, frames_to_render_eq] at this
        exact this
      have hb : W.throws s (EngineOp.Render ((min r 4096 : Nat) : Int)) = b := by
        have := callPlayer_snd W s (EngineOp.Render (frames_to_render r))
        rw [hcall, frames_to_render_eq] at this
        exact this.symm
      cases b with
      | true =>
        rw [renderLoop_raise W channels s s1 buf ptr r written hpos hcall,
          renderedSamples_raise W channels s s1 buf r copied hpos hcall]
        refine ⟨[], [], [], by simp, by simp, by simp, by simp, by simp, ?_, ?_, ?_⟩
        · intro i n h; simp at h
        · intro h; simp at h
        · intro _
          refine ⟨min r 4096, ?_, ?_, ?_⟩
          · rw [chunkSizes_pos r hpos]
            exact List.prefix_cons_inj _ |>.mpr List.nil_prefix
          · exact hs1
          · rw [show renderCalls [] = [] from rfl, logged_nil]
            exact hb
      | false =>
        rw [renderLoop_chunk W channels hch s s1 buf ptr r written hpos hr hcall,
          renderedSamples_chunk W channels hch s s1 buf r copied hpos hr hcall]
        have hlt : r - min r 4096 < r := by omega
        obtain ⟨done, S, ws, hws, hS, hbytes, hoff, hlen, hret, hall, hraise⟩ :=
          ih (r - min r 4096) hlt s1 (W.Render s buf (frames_to_render r)).1
            (ptr + 2 * (min r 4096 * channels.toNat))
            (written ++ copySamples (W.Render s buf (frames_to_render r)).1 ptr
              (min r 4096 * channels.toNat))
            (copied ++ (List.range (min r 4096 * channels.toNat)).map
              (W.Render s buf (frames_to_render r)).1) (by omega)
        refine ⟨min r 4096 :: done,
          (List.range (min r 4096 * channels.toNat)).map
            (W.Render s buf (frames_to_render r)).1 ++ S,
          copySamples (W.Render s buf (frames_to_render r)).1 ptr
            (min r 4096 * channels.toNat) ++ ws, ?_, ?_, ?_, ?_, ?_, ?_, ?_, ?_⟩
        · rw [hws, List.append_assoc]
        · rw [hS, List.append_assoc]
        · rw [List.map_append, copySamples_bytes, hbytes, List.flatMap_append]
        · rw [List.map_append, copySamples_offsets, hoff, List.length_append, List.length_map,
            List.length_range, Nat.mul_add]
          have := List.range'_append ptr (2 * (min r 4096 * channels.toNat)) (2 * S.length) 1
          simp only [Nat.one_mul] at this
          rw [this, Nat.add_comm]
        · rw [List.length_append, List.length_map, List.length_range, hlen, List.sum_cons,
            Nat.add_mul]
        · intro i n h
          cases i with
          | zero =>
            simp only [List.getElem?_cons_zero, Option.some.injEq] at h
            subst h
            rw [List.take_zero, show renderCalls [] = [] from rfl, logged_nil]
            exact hb
          | succ j =>
            rw [List.getElem?_cons_succ] at h
            have := hret j n h
            rw [hs1, logged_render] at this
            rw [List.take_succ_cons]
            exact this
        · intro h
          obtain ⟨h1, h2⟩ := hall h
          refine ⟨?_, ?_⟩
          · rw [h1, ← chunkSizes_pos r hpos]
          · rw [h2, hs1, logged_render]
        · intro h
          obtain ⟨n, h1, h2, h3⟩ := hraise h
          refine ⟨n, ?_, ?_, ?_⟩
          · rw [chunkSizes_pos r hpos, List.cons_append]
            exact List.prefix_cons_inj _ |>.mpr h1
          · rw [h2, hs1, logged_render, List.cons_append]
          · rw [hs1, logged_render] at h3
            exact h3

theorem snoc_lookup (l c : List Nat) (n : Nat) (h : (l ++ [n]) <+: c) :
    c.get? l.length = some n ∧ c.take l.length = l := by
  obtain ⟨t, ht⟩ := h
  subst ht
  constructor
  · rw [List.get?_eq_getElem?, List.append_assoc, List.getElem?_append_right (le_refl _)]
    simp
  · simp [List.take_append_eq_append_take]

/-- Once the header is stored and a `Render` of the chunk loop raises: the
calls before the raising one returned, the samples copied are one per channel
of every frame of those calls, and the stores of the call are the header
followed by these samples, in order, nothing else. -/
theorem renderLoop_raised (W : World) (ch : Int) (hch : ch = 1 ∨ ch = 2) (s1 : Session)
    (buf : SampleBuf) (tf : Nat) (htf : tf < 18446744073709551616) (sr : Int) (ts ds : Nat)
    (dest : Mem)
    (hraise : (renderLoop W ch s1 buf 44 tf (writeHeader sr ch ts ds)).threw = true) :
    (∃ (done : List Nat) (n : Nat), (done ++ [n]) <+: chunkSizes tf ∧
      (∀ (i m : Nat), done[i]? = some m →
        W.throws (logged s1 (renderCalls (done.take i))) (EngineOp.Render (m : Int)) = false) ∧
      W.throws (logged s1 (renderCalls done)) (EngineOp.Render (n : Int)) = true ∧
      (renderLoop W ch s1 buf 44 tf (writeHeader sr ch ts ds)).session
        = logged s1 (renderCalls (done ++ [n])) ∧
      (renderedSamples W ch s1 buf tf []).length = done.sum * ch.toNat) ∧
    (renderLoop W ch s1 buf 44 tf (writeHeader sr ch ts ds)).writes.map Prod.fst
      = List.range' 0 (44 + 2 * (renderedSamples W ch s1 buf tf []).length) ∧
    (List.range' 44 (2 * (renderedSamples W ch s1 buf tf []).length)).map
        (applyWrites dest (renderLoop W ch s1 buf 44 tf (writeHeader sr ch ts ds)).writes)
      = (renderedSamples W ch s1 buf tf []).flatMap (leField 2) := by
  obtain ⟨done, S, ws, hws, hS, hbytes, hoff, hlen, hret, _, hr⟩ :=
    renderLoop_trace W ch hch tf s1 buf 44 (writeHeader sr ch ts ds) [] htf
  rw [List.nil_append] at hS
  obtain ⟨n, h1, h2, h3⟩ := hr hraise
  have hfst : (writeHeader sr ch ts ds).map Prod.fst = List.range' 0 44 := by
    simp [writeHeader, storeLE, memcpy, chars, List.range']
  have hwlen : ws.length = 2 * S.length := by
    have := congrArg List.length hoff
    rw [List.length_map, List.length_range'] at this
    exact this
  rw [hS]
  refine ⟨⟨done, n, h1, hret, h3, h2, hlen⟩, ?_, ?_⟩
  · rw [hws, List.map_append, hoff, hfst]
    have := List.range'_append 0 44 (2 * S.length) 1
    simp only [Nat.one_mul, Nat.zero_add] at this
    rw [this, Nat.add_comm]
  · rw [hws, applyWrites_append, ← hwlen, ← hbytes]
    apply applyWrites_run
    rw [hoff, hwlen]

/-- With the faulty engine a loop over 5000 frames in mono copies the 4096
samples of the first chunk. -/
theorem faulty_samples (s : Session) (buf : SampleBuf) :
    (renderedSamples faultyWorld 1 s buf 5000 []).length = 4096 := by
  have n1 : frames_to_render 5000 = 4096 := by rw [frames_to_render_eq]; decide
  have n2 : frames_to_render 904 = 904 := by rw [frames_to_render_eq]; decide
  have c1 : callPlayer faultyWorld s (EngineOp.Render (frames_to_render 5000))
      = ((callPlayer faultyWorld s (EngineOp.Render (frames_to_render 5000))).1, false) := by
    apply Prod.ext
    · rfl
    · rw [callPlayer_snd, n1]; rfl
  rw [renderedSamples_chunk faultyWorld 1 (Or.inl rfl) s _ buf 5000 [] (by decide)
    (by decide) c1]
  have e : 5000 - min 5000 4096 = 904 := by decide
  rw [e]
  generalize (callPlayer faultyWorld s (EngineOp.Render (frames_to_render 5000))).1 = s1
  have c2 : callPlayer faultyWorld s1 (EngineOp.Render (frames_to_render 904))
      = ((callPlayer faultyWorld s1 (EngineOp.Render (frames_to_render 904))).1, true) := by
    apply Prod.ext
    · rfl
    · rw [callPlayer_snd, n2]; rfl
  rw [renderedSamples_raise faultyWorld 1 s1 _ _ 904 _ (by decide) c2]
  have e2 : min 5000 4096 * Int.toNat 1 = 4096 := by decide
  rw [e2, List.nil_append, List.length_map, List.length_range]

theorem logged_player (s : Session) (p : NSFPlayer) (ops : List EngineOp)
    (hp : s.g_player = some p) : (logged s ops).g_player = some ⟨p.calls ++ ops⟩ := by
  simp [logged, hp]

/-- The first call of a `try` block is always made and recorded. -/
theorem callPlayerSeq_first (W : World) (ops : List EngineOp) :
    ∀ (op : EngineOp) (s : Session),
      ∃ rest, (callPlayerSeq W s (op :: ops)).1 = logged s (op :: rest) := by
  induction ops with
  | nil =>
    intro op s
    refine ⟨[], ?_⟩
    rcases hc : callPlayer W s op with ⟨s1, b⟩
    have h1 : s1 = logged s [op] := by
      have := callPlayer_fst W s op
      rw [hc] at this
      exact this
    cases b <;> simp only [callPlayerSeq, hc] <;> exact h1
  | cons op2 ops ih =>
    intro op s
    rcases hc : callPlayer W s op with ⟨s1, b⟩
    have h1 : s1 = logged s [op] := by
      have := callPlayer_fst W s op
      rw [hc] at this
      exact this
    cases b with
    | true =>
      refine ⟨[], ?_⟩
      rw [callPlayerSeq, hc]
      exact h1
    | false =>
      obtain ⟨rest, hr⟩ := ih op2 s1
      refine ⟨op2 :: rest, ?_⟩
      rw [callPlayerSeq, hc]
      simp only
      rw [hr, h1, logged_logged]
      rfl

/-- A request that passes the parameter checks reaches the engine: the record
of the player grows by `SetPlayFreq` and what follows it. -/
theorem nsf_to_wav_first (W : World) (s : Session) (nsf : NSF) (p : NSFPlayer)
    (hn : s.g_nsf = some nsf) (hp : s.g_player = some p) (tr l f r ch bs : Int)
    (hch : 1 ≤ ch ∧ ch ≤ 2) (htr : 1 ≤ tr ∧ tr ≤ nsf.total_songs) :
    ∃ rest, (nsf_to_wav W s tr l f r ch bs).session
      = logged s (EngineOp.SetPlayFreq r :: rest) := by
  have h1 : ¬ (ch < 1 ∨ ch > 2) := by omega
  have h2 : ¬ (tr < 1 ∨ tr > nsf.total_songs) := by omega
  obtain ⟨rest, hrest⟩ := callPlayerSeq_first W
    [EngineOp.SetChannels ch, EngineOp.SetSong (toI32 (tr - 1)), EngineOp.Reset,
      EngineOp.UpdateInfinite] (EngineOp.SetPlayFreq r) s
  have hops : EngineOp.SetPlayFreq r :: [EngineOp.SetChannels ch,
      EngineOp.SetSong (toI32 (tr - 1)), EngineOp.Reset, EngineOp.UpdateInfinite]
      = setupOps tr r ch := rfl
  rw [hops] at hrest
  rcases hseq : callPlayerSeq W s (setupOps tr r ch) with ⟨s1, b⟩
  rw [hseq] at hrest
  simp only at hrest
  unfold nsf_to_wav
  simp only [hn, hp, h1, h2, hseq, if_false]
  cases b with
  | true => exact ⟨rest, hrest⟩
  | false =>
    simp only
    by_cases h3 : total_size (data_size (total_frames l f r) ch) > toU32 bs
    · simp only [h3, if_true]
      exact ⟨rest, hrest⟩
    · simp only [h3, if_false]
      obtain ⟨reqs, _, hlog, _⟩ := renderLoop_log W ch (total_frames l f r) s1 W.freshBuffer
        sizeofWAVHeader (writeHeader r ch (total_size (data_size (total_frames l f r) ch))
          (data_size (total_frames l f r) ch)) (total_frames_lt l f r)
      refine ⟨rest ++ renderCalls reqs, ?_⟩
      have e : logged s (EngineOp.SetPlayFreq r :: (rest ++ renderCalls reqs))
          = logged (logged s (EngineOp.SetPlayFreq r :: rest)) (renderCalls reqs) := by
        rw [logged_logged]; rfl
      rw [e, ← hrest, ← hlog]
      split <;> rfl

/-- Whatever `nsf_to_wav` does, both objects of a session that has them are
still there afterwards. -/
theorem nsf_to_wav_objects (W : World) (s : Session) (tr l f r ch bs : Int)
    (h : s.g_nsf.isSome = true ∧ s.g_player.isSome = true) :
    (nsf_to_wav W s tr l f r ch bs).session.g_nsf.isSome = true ∧
      (nsf_to_wav W s tr l f r ch bs).session.g_player.isSome = true := by
  obtain ⟨hn, hp⟩ := h
  cases hn1 : s.g_nsf with
  | none => rw [hn1] at hn; simp at hn
  | some nsf =>
    cases hp1 : s.g_player with
    | none => rw [hp1] at hp; simp at hp
    | some p =>
      by_cases hg : (1 ≤ ch ∧ ch ≤ 2) ∧ (1 ≤ tr ∧ tr ≤ nsf.total_songs)
      · obtain ⟨rest, hrest⟩ := nsf_to_wav_first W s nsf p hn1 hp1 tr l f r ch bs hg.1 hg.2
        rw [hrest]
        simp [logged, hn1, hp1]
      · have hrej : nsf_to_wav W s tr l f r ch bs = ⟨0, [], s⟩ := by
          unfold nsf_to_wav
          simp only [hn1, hp1]
          by_cases h1 : ch < 1 ∨ ch > 2
          · simp only [h1, if_true]
          · have h2 : tr < 1 ∨ tr > nsf.total_songs := by omega
            simp only [h1, h2, if_true, if_false]
        rw [hrej]
        simp [hn1, hp1]

theorem loadTry_player (W : World) (s1 : Session) (data : List Nat) (fopen_ok : Bool)
    (h : s1.g_player.isSome = true) :
    (loadTry W s1 data fopen_ok).2.g_player.isSome = true := by
  unfold loadTry
  cases hn : s1.g_nsf with
  | none => simpa using h
  | some nsf =>
    simp only
    cases fopen_ok with
    | false => simpa using h
    | true =>
      simp only [Bool.not_true, Bool.false_eq_true, if_false]
      rcases hL : W.LoadFile nsf data with ⟨o, nsf1⟩
      cases o with
      | threw => simpa using h
      | returned b =>
        cases b with
        | false => simpa using h
        | true =>
          simp only [callPlayer]
          generalize W.throws _ _ = t
          generalize W.LoadOk _ = k
          cases t <;> cases k <;> simpa using h

/-- After `load_nsf_data`, whatever it returns, `g_player` is not null. -/
theorem load_nsf_data_player (W : World) (s : Session) (data : List Nat) (fopen_ok : Bool) :
    (load_nsf_data W s data fopen_ok).2.g_player.isSome = true := by
  unfold load_nsf_data
  have hentry : (if (s.g_nsf.isNone || s.g_player.isNone) = true then init_nsf_player W s
      else ((1 : Int), s)).2.g_player.isSome = true := by
    split
    · rw [(init_nsf_player_created W s).2]; rfl
    · rename_i hc
      cases hp : s.g_player with
      | none => simp [hp] at hc
      | some v => rfl
  generalize (if (s.g_nsf.isNone || s.g_player.isNone) = true then init_nsf_player W s
      else ((1 : Int), s)) = e at hentry
  simp only
  split
  · exact hentry
  · exact loadTry_player W e.2 data fopen_ok hentry

/-- In every created state both the collection object and the player exist. -/
theorem Created_objects (W : World) (c : Session) (hc : Created W c) :
    c.g_nsf.isSome = true ∧ c.g_player.isSome = true := by
  induction hc with
  | init s0 _ =>
    obtain ⟨hn, hp⟩ := init_nsf_player_created W s0
    rw [hn, hp]
    exact ⟨rfl, rfl⟩
  | failedLoad c data fopen_ok _ _ _ =>
    exact ⟨(load_nsf_data_nsf W c data fopen_ok).2, load_nsf_data_player W c data fopen_ok⟩
  | setTrack c tr _ ih =>
    obtain ⟨hn, hp⟩ := ih
    unfold nsf_set_track
    cases hn1 : c.g_nsf with
    | none => rw [hn1] at hn; simp at hn
    | some nsf =>
      cases hp1 : c.g_player with
      | none => rw [hp1] at hp; simp at hp
      | some p =>
        simp only
        split
        · obtain ⟨rest, hrest⟩ := callPlayerSeq_first W [EngineOp.Reset] (EngineOp.SetSong tr) c
          rw [hrest]
          simp [logged, hn1, hp1]
        · simp [hn1, hp1]
  | setOptions c r ch _ ih =>
    obtain ⟨hn, hp⟩ := ih
    unfold nsf_player_set_options
    cases hp1 : c.g_player with
    | none => rw [hp1] at hp; simp at hp
    | some p =>
      simp only
      obtain ⟨rest, hrest⟩ := callPlayerSeq_first W [EngineOp.SetChannels ch]
        (EngineOp.SetPlayFreq r) c
      rw [hrest]
      simp [logged, hn, hp1]
  | renderAudio c tr fc ob _ ih =>
    obtain ⟨hn, hp⟩ := ih
    cases hn1 : c.g_nsf with
    | none => rw [hn1] at hn; simp at hn
    | some nsf =>
      cases hp1 : c.g_player with
      | none => rw [hp1] at hp; simp at hp
      | some p =>
        cases ob with
        | none =>
          unfold nsf_render_audio
          simp [hn1, hp1]
        | some buf =>
          by_cases hfc : 0 < fc
          · rw [nsf_render_audio_call W c p nsf hp1 hn1 tr fc buf hfc]
            simp [logged, hn1, hp1]
          · have : fc ≤ 0 := by omega
            unfold nsf_render_audio
            simp [hn1, hp1, this]
  | reset c _ ih =>
    obtain ⟨hn, hp⟩ := ih
    unfold nsf_reset
    cases hp1 : c.g_player with
    | none => rw [hp1] at hp; simp at hp
    | some p =>
      simp only [callPlayer]
      simp [hn, hp1]
  | toWav c tr l f r ch bs _ ih =>
    exact nsf_to_wav_objects W c tr l f r ch bs ih

theorem unboundWorld_quiet : ∀ s op, unboundWorld.throws s op = false := by
  intro s op; rfl

theorem unboundSession_nsf :
    unboundSession.g_nsf = some
      ⟨none, none, none, 3, 1, 120000, 3000, 1, true, [78, 69, 83, 77, 26, 1, 3, 1]⟩ := by
  decide

theorem unboundSession_player :
    unboundSession.g_player = some ⟨[EngineOp.SetConfig, EngineOp.Load]⟩ := by
  decide

/-! ## The claims -/

/-- C1 (evaluation at the failing input). On the loaded session, the request
track 1, 22369622 ms, no fade, 48000 Hz, two channels, with a destination of
172 bytes needs 44 + 1073741856 * 2 * 2 bytes, far more than 172; the 32-bit
`data_size` wraps to 128, the capacity check passes, the call returns 172, not
0, replaces destination byte 0 and stores to offset 172, which is outside the
destination. -/
theorem C1_capacity_check_wraps :
    (44 + (22369622 + 0) * 48000 / 1000 * 2 * 2 : Int) > 172 ∧
    total_frames 22369622 0 48000 = 1073741856 ∧
    data_size (total_frames 22369622 0 48000) 2 = 128 ∧
    (nsf_to_wav silentWorld loadedSession 1 22369622 0 48000 2 172).ret = 172 ∧
    172 ∈ (nsf_to_wav silentWorld loadedSession 1 22369622 0 48000 2 172).writes.map Prod.fst ∧
    applyWrites zeroMem
      (nsf_to_wav silentWorld loadedSession 1 22369622 0 48000 2 172).writes 0 ≠ zeroMem 0 := by
  refine ⟨by decide, overflow_frames, by rw [overflow_frames, overflow_data_size],
    overflow_request.1, ?_, ?_⟩
  · rw [overflow_request.2, List.mem_range']
    exact ⟨172, by decide, by decide⟩
  · have hh := header_after_success silentWorld loadedSession 1 22369622 0 48000 2 172 zeroMem
      (by rw [overflow_request.1]; decide)
    have h0 := map_range_getD hh 0 (by decide)
    rw [h0, overflow_frames, overflow_data_size]
    decide

/-- C2 (evaluation at the failing input). With `length_ms = 2147483647`,
`fade_ms = 1` and `sample_rate = 1000`, all within the claim's ranges, the code
adds the two durations as 32-bit `int` before widening, so the sum wraps to
`-2147483648` and `total_frames` is 18446741926225903, whereas
`floor((2147483647 + 1) * 1000 / 1000)` is 2147483648. -/
theorem C2_total_frames_wraps :
    IsInt32 2147483647 ∧ IsInt32 1 ∧ IsInt32 1000 ∧
    toI32 (2147483647 + 1) = -2147483648 ∧
    total_frames 2147483647 1 1000 = 18446741926225903 ∧
    ((2147483647 + 1) * 1000 / 1000 : Int) = 2147483648 := by
  refine ⟨by decide, by decide, by decide, ?_, ?_, by decide⟩
  · unfold toI32; decide
  · unfold total_frames toU64 toI32; decide

/-- C3 (evaluation at the failing input). The request of 22369622 ms at
48000 Hz in stereo with a 172-byte destination returns 172 (non-zero); the
data size field at bytes 40..43 parses to 128 and the file size field at bytes
4..7 to 164, whereas `total_frames * channels * 2` is 4294967424 and
`44 + total_frames * channels * 2 - 8` is 4294967460. -/
theorem C3_size_fields_wrap :
    (nsf_to_wav silentWorld loadedSession 1 22369622 0 48000 2 172).ret = 172 ∧
    total_frames 22369622 0 48000 * 2 * 2 = 4294967424 ∧
    readLE (applyWrites zeroMem
      (nsf_to_wav silentWorld loadedSession 1 22369622 0 48000 2 172).writes) 40 4 = 128 ∧
    readLE (applyWrites zeroMem
      (nsf_to_wav silentWorld loadedSession 1 22369622 0 48000 2 172).writes) 4 4 = 164 := by
  have hf := header_fields silentWorld loadedSession 1 22369622 0 48000 2 172 zeroMem
    (by rw [overflow_request.1]; decide)
  rw [overflow_frames, overflow_data_size] at hf
  exact ⟨overflow_request.1, by rw [overflow_frames], hf.2.2.2, hf.1⟩

/-- C4. For every successful `nsf_to_wav` request the first 44 destination
bytes are exactly the canonical PCM header: `RIFF`, total size minus 8, `WAVE`,
`fmt `, 16, 1, channels, sample rate, sample rate times channels times 2,
channels times 2, 16, `data`, data size, each integer field stored
little-endian (byte `i` of a field holds bits `8 i .. 8 i + 7` of the value);
the header is a function of sample rate, channel count and data size only. -/
theorem C4_header_is_canonical (W : World) (s : Session) (tr l f r ch bs : Int) (dest : Mem)
    (hok : (nsf_to_wav W s tr l f r ch bs).ret ≠ 0) :
    (List.range 44).map (applyWrites dest (nsf_to_wav W s tr l f r ch bs).writes)
      = canonicalHeader r ch (data_size (total_frames l f r) ch) :=
  header_after_success W s tr l f r ch bs dest hok

/-- C4, witness: one second at 44100 Hz in stereo into 176444 bytes. -/
theorem C4_header_is_canonical_witness :
    (nsf_to_wav silentWorld loadedSession 1 1000 0 44100 2 176444).ret ≠ 0 ∧
    (List.range 44).map
        (applyWrites zeroMem (nsf_to_wav silentWorld loadedSession 1 1000 0 44100 2 176444).writes)
      = canonicalHeader 44100 2 (data_size (total_frames 1000 0 44100) 2) :=
  ⟨by rw [second_request.1]; decide,
   C4_header_is_canonical silentWorld loadedSession 1 1000 0 44100 2 176444 zeroMem
     (by rw [second_request.1]; decide)⟩

/-- C5 (counterexample). The request with `sample_rate = -1`, no frames, two
channels and a 44-byte destination succeeds (returns 44); parsing bytes 24..27
of the header as an unsigned little-endian integer gives 4294967295, not the
sample rate -1 that was passed. -/
theorem C5_negative_rate_not_recovered :
    (nsf_to_wav silentWorld loadedSession 1 0 0 (-1) 2 44).ret = 44 ∧
    (readLE (applyWrites zeroMem
      (nsf_to_wav silentWorld loadedSession 1 0 0 (-1) 2 44).writes) 24 4 : Int) = 4294967295 ∧
    (readLE (applyWrites zeroMem
      (nsf_to_wav silentWorld loadedSession 1 0 0 (-1) 2 44).writes) 24 4 : Int) ≠ -1 := by
  have hf := header_fields silentWorld loadedSession 1 0 0 (-1) 2 44 zeroMem
    (by rw [negative_rate_request]; decide)
  have h := hf.2.2.1
  refine ⟨negative_rate_request, ?_, ?_⟩
  · rw [h]; decide
  · rw [h]; decide

/-- C5 (as amended). For every successful `nsf_to_wav` request, parsing the
header back gives the channel count passed, the sample rate passed reduced
modulo 2^32 (so exactly the sample rate when it is not negative), and the
32-bit data size the call computed (which is `total_frames * channels * 2`
when that product is below 2^32). -/
theorem C5_header_round_trip (W : World) (s : Session) (tr l f r ch bs : Int) (dest : Mem)
    (hok : (nsf_to_wav W s tr l f r ch bs).ret ≠ 0) :
    (readLE (applyWrites dest (nsf_to_wav W s tr l f r ch bs).writes) 22 2 : Int) = ch ∧
    (readLE (applyWrites dest (nsf_to_wav W s tr l f r ch bs).writes) 24 4 : Int)
      = r % 4294967296 ∧
    (0 ≤ r → IsInt32 r →
      (readLE (applyWrites dest (nsf_to_wav W s tr l f r ch bs).writes) 24 4 : Int) = r) ∧
    readLE (applyWrites dest (nsf_to_wav W s tr l f r ch bs).writes) 40 4
      = data_size (total_frames l f r) ch ∧
    (total_frames l f r * ch.toNat * 2 < 4294967296 →
      readLE (applyWrites dest (nsf_to_wav W s tr l f r ch bs).writes) 40 4
        = total_frames l f r * ch.toNat * 2) := by
  obtain ⟨_, h22, h24, h40⟩ := header_fields W s tr l f r ch bs dest hok
  obtain ⟨hch, _⟩ := nsf_to_wav_nonzero W s tr l f r ch bs hok
  refine ⟨h22, h24, ?_, h40, ?_⟩
  · intro h0 hr
    unfold IsInt32 at hr
    rw [h24]
    omega
  · intro hlt
    rw [h40]
    unfold data_size toU64
    rcases hch with h | h <;> subst h <;> simp at hlt ⊢ <;> omega

/-- C5, witness: one second at 44100 Hz in stereo into 176444 bytes. -/
theorem C5_header_round_trip_witness :
    (nsf_to_wav silentWorld loadedSession 1 1000 0 44100 2 176444).ret ≠ 0 ∧
    (readLE (applyWrites zeroMem
      (nsf_to_wav silentWorld loadedSession 1 1000 0 44100 2 176444).writes) 22 2 : Int) = 2 ∧
    (readLE (applyWrites zeroMem
      (nsf_to_wav silentWorld loadedSession 1 1000 0 44100 2 176444).writes) 24 4 : Int)
      = 44100 % 4294967296 ∧
    readLE (applyWrites zeroMem
      (nsf_to_wav silentWorld loadedSession 1 1000 0 44100 2 176444).writes) 40 4
      = data_size (total_frames 1000 0 44100) 2 :=
  have h := C5_header_round_trip silentWorld loadedSession 1 1000 0 44100 2 176444 zeroMem
    (by rw [second_request.1]; decide)
  ⟨by rw [second_request.1]; decide, h.1, h.2.1, h.2.2.2.1⟩

/-- C6 (evaluation at the failing input). The request of 22369622 ms at
48000 Hz in stereo with a 172-byte destination returns 172, while the call
makes 4294967468 byte stores: 44 for the header and 1073741856 * 2 * 2 for the
payload. -/
theorem C6_return_differs_from_bytes_written :
    (nsf_to_wav silentWorld loadedSession 1 22369622 0 48000 2 172).ret = 172 ∧
    (nsf_to_wav silentWorld loadedSession 1 22369622 0 48000 2 172).writes.length
      = 44 + 1073741856 * 2 * 2 := by
  refine ⟨overflow_request.1, ?_⟩
  have h := congrArg List.length overflow_request.2
  rw [List.length_map, List.length_range'] at h
  rw [h]

/-- C7. Every `nsf_to_wav` request whose channel count is outside 1..2, or
whose track number is outside `1..total_songs`, returns 0, makes no store to
the destination (so every destination byte is unchanged) and leaves the
session, with the record of the engine calls, as it was. -/
theorem C7_invalid_request_rejected (W : World) (s : Session) (tr l f r ch bs : Int)
    (h : (ch < 1 ∨ 2 < ch) ∨ ∀ nsf, s.g_nsf = some nsf → (tr < 1 ∨ nsf.total_songs < tr)) :
    (nsf_to_wav W s tr l f r ch bs).ret = 0 ∧
    (nsf_to_wav W s tr l f r ch bs).writes = [] ∧
    (∀ dest : Mem, applyWrites dest (nsf_to_wav W s tr l f r ch bs).writes = dest) ∧
    (nsf_to_wav W s tr l f r ch bs).session = s := by
  have key : nsf_to_wav W s tr l f r ch bs = ⟨0, [], s⟩ := by
    unfold nsf_to_wav
    split
    · rename_i nsf p hn hp
      rcases h with h | h
      · have : ch < 1 ∨ ch > 2 := by omega
        simp [this]
      · have h2 := h nsf hn
        have : tr < 1 ∨ tr > nsf.total_songs := by omega
        simp [this]
    · rfl
  rw [key]
  exact ⟨rfl, rfl, fun _ => rfl, rfl⟩

/-- C7, witness: three channels on the loaded session. -/
theorem C7_invalid_request_rejected_witness :
    ((3 : Int) < 1 ∨ (2 : Int) < 3) ∧
    (nsf_to_wav silentWorld loadedSession 1 1000 0 44100 3 176444).ret = 0 ∧
    (nsf_to_wav silentWorld loadedSession 1 1000 0 44100 3 176444).writes = [] ∧
    (∀ dest : Mem,
      applyWrites dest (nsf_to_wav silentWorld loadedSession 1 1000 0 44100 3 176444).writes
        = dest) ∧
    (nsf_to_wav silentWorld loadedSession 1 1000 0 44100 3 176444).session = loadedSession :=
  ⟨Or.inr (by decide),
   C7_invalid_request_rejected silentWorld loadedSession 1 1000 0 44100 3 176444
     (Or.inl (Or.inr (by decide)))⟩

/-- C9 (counterexample). Right after a successful `init_nsf_player` from the
initial state, with no load at all, `get_nsf_info` returns 1 and reports the
empty collection (no songs). -/
theorem C9_info_succeeds_right_after_init :
    (init_nsf_player silentWorld Session.uninitialized).1 = 1 ∧
    (get_nsf_info (init_nsf_player silentWorld Session.uninitialized).2).1 = 1 ∧
    ((get_nsf_info (init_nsf_player silentWorld Session.uninitialized).2).2.map
      fun i => i.total_songs) = some 0 := by
  decide

/-- C9 (as amended). In every session state reached from the initial state by
a sequence of `init_nsf_player`, `load_nsf_data` and `cleanup` calls,
`get_nsf_info` returns 1 exactly when the collection object exists, that is
when the sequence is not empty and its last call is `init_nsf_player` or
`load_nsf_data` (successful or not); it returns 0 in the initial state and
after `cleanup`. -/
theorem C9_info_succeeds_iff_object_exists (W : World) (calls : List LifecycleCall) :
    (get_nsf_info (runCalls W Session.uninitialized calls)).1 =
      match calls.getLast? with
      | none => 0
      | some LifecycleCall.callCleanup => 0
      | some _ => 1 := by
  induction calls using List.reverseRecOn with
  | nil => rfl
  | append_singleton l c _ =>
    have hrun : runCalls W Session.uninitialized (l ++ [c])
        = runCall W (runCalls W Session.uninitialized l) c := by
      simp [runCalls, List.foldl_append]
    rw [hrun, List.getLast?_append, get_nsf_info_ret]
    cases c with
    | callInit =>
      simp [runCall, init_nsf_player_nsf]
    | callLoad data fopen_ok =>
      simp [runCall, (load_nsf_data_nsf W _ data fopen_ok).2]
    | callCleanup =>
      simp [runCall, cleanup_eq, Session.uninitialized]

/-- C10 (counterexample). With an engine whose second `Render` raises, the
otherwise valid request for 5000 frames in mono into 20000 bytes returns 0,
yet the destination starts with the complete header announcing 10000 bytes of
data: byte 0 is no longer what it was. -/
theorem C10_header_left_behind :
    (nsf_to_wav faultyWorld loadedSession 1 5000 0 1000 1 20000).ret = 0 ∧
    (List.range 44).map
        (applyWrites zeroMem (nsf_to_wav faultyWorld loadedSession 1 5000 0 1000 1 20000).writes)
      = canonicalHeader 1000 1 10000 ∧
    applyWrites zeroMem (nsf_to_wav faultyWorld loadedSession 1 5000 0 1000 1 20000).writes 0
      ≠ zeroMem 0 := by
  have h := render_error_outcome faultyWorld loadedSession _ _ loadedSession_nsf
    loadedSession_player 1 5000 0 1000 1 20000 (by decide) (by decide)
    (faulty_setup _ _ _ _) faulty_capacity (by rw [faulty_frames]; exact faulty_loop _ _ _ _)
    zeroMem
  have hds : data_size (total_frames 5000 0 1000) 1 = 10000 := by
    rw [faulty_frames]; unfold data_size toU64; decide
  rw [hds] at h
  refine ⟨h.1, h.2, ?_⟩
  rw [map_range_getD h.2 0 (by decide)]
  decide

/-- C10 (as amended). For every otherwise valid `nsf_to_wav` request (loaded
session, one or two channels, track in range, the configuration calls not
raising, the capacity check passed) in which a `Render` call of the chunk loop
raises, the call returns 0 and nothing is rolled back. The first 44 destination
bytes are the complete canonical header written by this call, announcing the
full data size of the request. The `Render` calls before the raising one, the
chunks `done`, returned; the raising call, for the next chunk `n`, is the last
engine call. The stores of the call go to the offsets 0, 1, 2, ... up to 44
plus two bytes per copied sample, and from offset 44 the destination holds the
samples of the chunks rendered before the error, one per channel of every frame
of `done`, two bytes each, low byte first. -/
theorem C10_render_error_returns_zero_header_stays (W : World) (s : Session) (nsf : NSF)
    (p : NSFPlayer) (hn : s.g_nsf = some nsf) (hp : s.g_player = some p)
    (tr l f r ch bs : Int) (hch : 1 ≤ ch ∧ ch ≤ 2) (htr : 1 ≤ tr ∧ tr ≤ nsf.total_songs)
    (hsetup : (callPlayerSeq W s (setupOps tr r ch)).2 = false)
    (hsz : total_size (data_size (total_frames l f r) ch) ≤ toU32 bs)
    (hraise : (renderLoop W ch (callPlayerSeq W s (setupOps tr r ch)).1 W.freshBuffer
      sizeofWAVHeader (total_frames l f r)
      (writeHeader r ch (total_size (data_size (total_frames l f r) ch))
        (data_size (total_frames l f r) ch))).threw = true)
    (dest : Mem) :
    (nsf_to_wav W s tr l f r ch bs).ret = 0 ∧
    (List.range 44).map (applyWrites dest (nsf_to_wav W s tr l f r ch bs).writes)
      = canonicalHeader r ch (data_size (total_frames l f r) ch) ∧
    (∃ (done : List Nat) (n : Nat), (done ++ [n]) <+: chunkSizes (total_frames l f r) ∧
      (∀ (i m : Nat), done[i]? = some m →
        W.throws (logged (callPlayerSeq W s (setupOps tr r ch)).1 (renderCalls (done.take i)))
          (EngineOp.Render (m : Int)) = false) ∧
      W.throws (logged (callPlayerSeq W s (setupOps tr r ch)).1 (renderCalls done))
        (EngineOp.Render (n : Int)) = true ∧
      (nsf_to_wav W s tr l f r ch bs).session
        = logged (callPlayerSeq W s (setupOps tr r ch)).1 (renderCalls (done ++ [n])) ∧
      (renderedSamples W ch (callPlayerSeq W s (setupOps tr r ch)).1 W.freshBuffer
        (total_frames l f r) []).length = done.sum * ch.toNat) ∧
    (nsf_to_wav W s tr l f r ch bs).writes.map Prod.fst
      = List.range' 0 (44 + 2 * (renderedSamples W ch (callPlayerSeq W s (setupOps tr r ch)).1
          W.freshBuffer (total_frames l f r) []).length) ∧
    (List.range' 44 (2 * (renderedSamples W ch (callPlayerSeq W s (setupOps tr r ch)).1
        W.freshBuffer (total_frames l f r) []).length)).map
        (applyWrites dest (nsf_to_wav W s tr l f r ch bs).writes)
      = (renderedSamples W ch (callPlayerSeq W s (setupOps tr r ch)).1 W.freshBuffer
          (total_frames l f r) []).flatMap (leField 2) := by
  have hch2 : ch = 1 ∨ ch = 2 := by omega
  have hout := render_error_outcome W s nsf p hn hp tr l f r ch bs hch htr hsetup hsz hraise dest
  have hseq : callPlayerSeq W s (setupOps tr r ch)
      = ((callPlayerSeq W s (setupOps tr r ch)).1, false) := by
    rw [← hsetup]
  have hres := nsf_to_wav_accepted W s nsf p hn hp tr l f r ch bs hch2 htr _ hseq hsz
  simp only [hraise, if_true] at hres
  simp only [sizeofWAVHeader] at hraise hres
  have hloop := renderLoop_raised W ch hch2 (callPlayerSeq W s (setupOps tr r ch)).1
    W.freshBuffer (total_frames l f r) (total_frames_lt l f r) r
    (total_size (data_size (total_frames l f r) ch)) (data_size (total_frames l f r) ch) dest
    hraise
  have hw : (nsf_to_wav W s tr l f r ch bs).writes
      = (renderLoop W ch (callPlayerSeq W s (setupOps tr r ch)).1 W.freshBuffer
          44 (total_frames l f r)
          (writeHeader r ch (total_size (data_size (total_frames l f r) ch))
            (data_size (total_frames l f r) ch))).writes := by
    rw [hres]
  have hs : (nsf_to_wav W s tr l f r ch bs).session
      = (renderLoop W ch (callPlayerSeq W s (setupOps tr r ch)).1 W.freshBuffer
          44 (total_frames l f r)
          (writeHeader r ch (total_size (data_size (total_frames l f r) ch))
            (data_size (total_frames l f r) ch))).session := by
    rw [hres]
  refine ⟨hout.1, hout.2, ?_, ?_, ?_⟩
  · rw [hs]; exact hloop.1
  · rw [hw]; exact hloop.2.1
  · rw [hw]; exact hloop.2.2

/-- C10, witness: the faulty engine, 5000 frames in mono into 20000 bytes. The
call returns 0, the header announcing 10000 bytes of data is in place, and the
stores cover the header and the 4096 samples of the first chunk. -/
theorem C10_render_error_returns_zero_header_stays_witness :
    (nsf_to_wav faultyWorld loadedSession 1 5000 0 1000 1 20000).ret = 0 ∧
    (List.range 44).map
        (applyWrites zeroMem (nsf_to_wav faultyWorld loadedSession 1 5000 0 1000 1 20000).writes)
      = canonicalHeader 1000 1 (data_size (total_frames 5000 0 1000) 1) ∧
    (renderedSamples faultyWorld 1
      (callPlayerSeq faultyWorld loadedSession (setupOps 1 1000 1)).1 faultyWorld.freshBuffer
      (total_frames 5000 0 1000) []).length = 4096 ∧
    (nsf_to_wav faultyWorld loadedSession 1 5000 0 1000 1 20000).writes.map Prod.fst
      = List.range' 0 (44 + 2 * (renderedSamples faultyWorld 1
          (callPlayerSeq faultyWorld loadedSession (setupOps 1 1000 1)).1
          faultyWorld.freshBuffer (total_frames 5000 0 1000) []).length) ∧
    (List.range' 44 (2 * (renderedSamples faultyWorld 1
        (callPlayerSeq faultyWorld loadedSession (setupOps 1 1000 1)).1
        faultyWorld.freshBuffer (total_frames 5000 0 1000) []).length)).map
        (applyWrites zeroMem (nsf_to_wav faultyWorld loadedSession 1 5000 0 1000 1 20000).writes)
      = (renderedSamples faultyWorld 1
          (callPlayerSeq faultyWorld loadedSession (setupOps 1 1000 1)).1
          faultyWorld.freshBuffer (total_frames 5000 0 1000) []).flatMap (leField 2) :=
  have h := C10_render_error_returns_zero_header_stays faultyWorld loadedSession _ _
    loadedSession_nsf loadedSession_player 1 5000 0 1000 1 20000 (by decide) (by decide)
    (faulty_setup _ _ _ _) faulty_capacity (by rw [faulty_frames]; exact faulty_loop _ _ _ _)
    zeroMem
  ⟨h.1, h.2.1, by rw [faulty_frames]; exact faulty_samples _ _, h.2.2.2.1, h.2.2.2.2⟩

/-- C11. For every session state and every index that is negative or at least
`total_songs`, `nsf_set_track` performs no engine operation: the session,
with the record of the engine calls (hence the selected track and the playback
position), is exactly as before. -/
theorem C11_out_of_range_track_ignored (W : World) (s : Session) (track_number : Int)
    (h : track_number < 0 ∨ ∀ nsf, s.g_nsf = some nsf → nsf.total_songs ≤ track_number) :
    nsf_set_track W s track_number = s := by
  unfold nsf_set_track
  split
  · rename_i p nsf hp hn
    have : ¬ (0 ≤ track_number ∧ track_number < nsf.total_songs) := by
      rcases h with h | h
      · omega
      · have := h nsf hn
        omega
    simp [this]
  · rfl

/-- C11, witness: index 3 on the loaded session, which has three songs. -/
theorem C11_out_of_range_track_ignored_witness :
    (∀ nsf, loadedSession.g_nsf = some nsf → nsf.total_songs ≤ 3) ∧
    nsf_set_track silentWorld loadedSession 3 = loadedSession :=
  have h : ∀ nsf, loadedSession.g_nsf = some nsf → nsf.total_songs ≤ 3 := by
    intro nsf hn
    rw [loadedSession_nsf] at hn
    injection hn with hn
    subst hn
    decide
  ⟨h, C11_out_of_range_track_ignored silentWorld loadedSession 3 (Or.inr h)⟩

/-- C12. `nsf_render_audio` returns 0 without invoking the engine when
`frame_count <= 0` or the destination is null (the session is unchanged). On a
session with a player and a collection, with a positive `frame_count` and a
destination, it invokes the engine's `Render` exactly once, with exactly
`frame_count` and the caller's destination, and when that call returns it
returns the frame count the call reported, converted to `int` (the reported
count itself when it is at most 2147483647); it returns 0 when the call raises. -/
theorem C12_render_audio_single_call (W : World) (s : Session) (track_number frame_count : Int)
    (output_buffer : Option SampleBuf) :
    (frame_count ≤ 0 ∨ output_buffer = none →
      nsf_render_audio W s track_number frame_count output_buffer = (0, output_buffer, s)) ∧
    (∀ p nsf buf, s.g_player = some p → s.g_nsf = some nsf → output_buffer = some buf →
      0 < frame_count →
      (nsf_render_audio W s track_number frame_count output_buffer).2.2
          = logged s [EngineOp.Render frame_count] ∧
      (nsf_render_audio W s track_number frame_count output_buffer).2.1
          = some (W.Render s buf frame_count).1 ∧
      (W.throws s (EngineOp.Render frame_count) = false →
        (nsf_render_audio W s track_number frame_count output_buffer).1
          = toI32 (toU32 (W.Render s buf frame_count).2)) ∧
      (W.throws s (EngineOp.Render frame_count) = false →
        0 ≤ (W.Render s buf frame_count).2 → (W.Render s buf frame_count).2 ≤ 2147483647 →
        (nsf_render_audio W s track_number frame_count output_buffer).1
          = (W.Render s buf frame_count).2) ∧
      (W.throws s (EngineOp.Render frame_count) = true →
        (nsf_render_audio W s track_number frame_count output_buffer).1 = 0)) := by
  constructor
  · intro h
    unfold nsf_render_audio
    split
    · rename_i p nsf buf
      rcases h with h | h
      · simp [h]
      · simp at h
    · rfl
  · intro p nsf buf hp hn hb hfc
    subst hb
    rw [nsf_render_audio_call W s p nsf hp hn track_number frame_count buf hfc]
    refine ⟨rfl, rfl, ?_, ?_, ?_⟩
    · intro ht; simp [ht]
    · intro ht h0 h1
      simp only [ht, Bool.false_eq_true, if_false]
      unfold toI32 toU32
      omega
    · intro ht; simp [ht]

/-- C13. From every session state, including the one with no active session,
`cleanup` yields the uninitialized state (no collection, no engine, no
configuration), and `cleanup` applied twice yields the same state as `cleanup`
applied once. -/
theorem C13_cleanup_total_idempotent (s : Session) :
    cleanup s = Session.uninitialized ∧
    cleanup Session.uninitialized = Session.uninitialized ∧
    cleanup (cleanup s) = cleanup s := by
  refine ⟨cleanup_eq s, cleanup_eq _, ?_⟩
  rw [cleanup_eq s, cleanup_eq]

/-- C14. On a loaded session with a track in range, an engine that does not
raise and a destination of capacity at least 176444, `nsf_to_wav` at 44100 Hz,
two channels, 1000 ms and no fade computes `total_frames = 44100` and
`data_size = 176400`, returns 176444 and leaves `RIFF` in destination bytes
0..3 and `WAVE` in bytes 8..11. -/
theorem C14_one_second_stereo (W : World) (hW : ∀ s op, W.throws s op = false) (s : Session)
    (nsf : NSF) (p : NSFPlayer) (hn : s.g_nsf = some nsf) (hp : s.g_player = some p)
    (tr bs : Int) (htr : 1 ≤ tr ∧ tr ≤ nsf.total_songs)
    (hbs : 176444 ≤ bs ∧ bs ≤ 2147483647) (dest : Mem) :
    total_frames 1000 0 44100 = 44100 ∧
    data_size (total_frames 1000 0 44100) 2 = 176400 ∧
    (nsf_to_wav W s tr 1000 0 44100 2 bs).ret = 176444 ∧
    [0, 1, 2, 3].map (applyWrites dest (nsf_to_wav W s tr 1000 0 44100 2 bs).writes)
      = chars "RIFF" ∧
    [8, 9, 10, 11].map (applyWrites dest (nsf_to_wav W s tr 1000 0 44100 2 bs).writes)
      = chars "WAVE" := by
  have htf : total_frames 1000 0 44100 = 44100 := by
    unfold total_frames toU64 toI32; decide
  have hds : data_size 44100 2 = 176400 := by
    unfold data_size toU64; decide
  have hts : total_size 176400 = 176444 := by
    unfold total_size sizeofWAVHeader; decide
  have hsz : total_size (data_size (total_frames 1000 0 44100) 2) ≤ toU32 bs := by
    rw [htf, hds, hts]; unfold toU32; omega
  obtain ⟨h1, _⟩ := nsf_to_wav_quiet W hW s nsf p hn hp tr 1000 0 44100 2 bs (Or.inr rfl)
    htr hsz
  rw [htf, hds, hts] at h1
  have hret : (nsf_to_wav W s tr 1000 0 44100 2 bs).ret = 176444 := by
    rw [h1]; unfold toI32; decide
  have hh := header_after_success W s tr 1000 0 44100 2 bs dest (by rw [hret]; decide)
  rw [htf, hds] at hh
  refine ⟨htf, by rw [htf, hds], hret, ?_, ?_⟩
  · simp only [List.map_cons, List.map_nil]
    rw [map_range_getD hh 0 (by decide), map_range_getD hh 1 (by decide),
      map_range_getD hh 2 (by decide), map_range_getD hh 3 (by decide)]
    decide
  · simp only [List.map_cons, List.map_nil]
    rw [map_range_getD hh 8 (by decide), map_range_getD hh 9 (by decide),
      map_range_getD hh 10 (by decide), map_range_getD hh 11 (by decide)]
    decide

/-- C14, witness: the loaded session with the silent engine and a destination
of exactly 176444 bytes. -/
theorem C14_one_second_stereo_witness :
    (nsf_to_wav silentWorld loadedSession 1 1000 0 44100 2 176444).ret = 176444 ∧
    [0, 1, 2, 3].map
        (applyWrites zeroMem (nsf_to_wav silentWorld loadedSession 1 1000 0 44100 2 176444).writes)
      = chars "RIFF" ∧
    [8, 9, 10, 11].map
        (applyWrites zeroMem (nsf_to_wav silentWorld loadedSession 1 1000 0 44100 2 176444).writes)
      = chars "WAVE" :=
  have h := C14_one_second_stereo silentWorld silentWorld_quiet loadedSession _ _
    loadedSession_nsf loadedSession_player 1 176444 (by decide) (by decide) zeroMem
  ⟨h.2.2.1, h.2.2.2.1, h.2.2.2.2⟩

/-- C15. For every successful `nsf_to_wav` request, with `S` the samples
copied by the chunk loop in render order across all chunks (one per channel
of every frame): the destination bytes from offset 44 on are the concatenation
of the samples of `S`, each as two bytes, low byte first; bytes `44 + 2 k` and
`44 + 2 k + 1` hold the low and the high byte of sample `k`, and decoding them
as a little-endian signed 16-bit integer gives sample `k` exactly (a sample
being a 16-bit signed value). -/
theorem C15_payload_encoding (W : World) (s : Session) (tr l f r ch bs : Int) (dest : Mem)
    (hok : (nsf_to_wav W s tr l f r ch bs).ret ≠ 0) :
    (renderedSamples W ch (callPlayerSeq W s (setupOps tr r ch)).1 W.freshBuffer
        (total_frames l f r) []).length = total_frames l f r * ch.toNat ∧
    (List.range' 44 (2 * (renderedSamples W ch (callPlayerSeq W s (setupOps tr r ch)).1
        W.freshBuffer (total_frames l f r) []).length)).map
        (applyWrites dest (nsf_to_wav W s tr l f r ch bs).writes)
      = (renderedSamples W ch (callPlayerSeq W s (setupOps tr r ch)).1 W.freshBuffer
          (total_frames l f r) []).flatMap (leField 2) ∧
    (∀ (k : Nat) (x : Int),
      (renderedSamples W ch (callPlayerSeq W s (setupOps tr r ch)).1 W.freshBuffer
        (total_frames l f r) [])[k]? = some x →
      applyWrites dest (nsf_to_wav W s tr l f r ch bs).writes (44 + 2 * k)
          = (x % 256).toNat ∧
      applyWrites dest (nsf_to_wav W s tr l f r ch bs).writes (44 + 2 * k + 1)
          = (x / 256 % 256).toNat ∧
      (-32768 ≤ x → x ≤ 32767 →
        decodeS16 (applyWrites dest (nsf_to_wav W s tr l f r ch bs).writes (44 + 2 * k))
          (applyWrites dest (nsf_to_wav W s tr l f r ch bs).writes (44 + 2 * k + 1)) = x)) := by
  obtain ⟨hlen, hbytes⟩ := payload_after_success W s tr l f r ch bs dest hok
  refine ⟨hlen, hbytes, ?_⟩
  intro k x hk
  obtain ⟨h0, h1⟩ := pairs_lookup _ _ 44 hbytes k x hk
  refine ⟨?_, ?_, ?_⟩
  · rw [h0]; unfold toU8; rfl
  · rw [h1]; unfold toU8; rfl
  · intro hx0 hx1
    rw [h0, h1]
    exact decodeS16_bytes x hx0 hx1

/-- C15, witness: one second at 44100 Hz in stereo into 176444 bytes. -/
theorem C15_payload_encoding_witness :
    (nsf_to_wav silentWorld loadedSession 1 1000 0 44100 2 176444).ret ≠ 0 ∧
    (renderedSamples silentWorld 2
        (callPlayerSeq silentWorld loadedSession (setupOps 1 44100 2)).1
        silentWorld.freshBuffer (total_frames 1000 0 44100) []).length
      = total_frames 1000 0 44100 * Int.toNat 2 :=
  ⟨by rw [second_request.1]; decide,
   (C15_payload_encoding silentWorld loadedSession 1 1000 0 44100 2 176444 zeroMem
     (by rw [second_request.1]; decide)).1⟩

/-- C16. The chunk loop is a total function: it terminates for every frame
count. When the engine raises in none of the `Render` calls for the chunks of
the frame count, the loop runs to its end and the engine's `Render` has been
invoked exactly on these chunks, in order. When the loop ends in a raise, the
calls made are the chunks `done` whose `Render` returned followed by the next
chunk, in whose `Render` the engine raised. There are `ceil(total / 4096)`
chunks, chunk `i` requests `min(total - 4096 i, 4096)` frames, the frames
remaining before it, every request is between 1 and 4096, and the requests sum
to the frame count. -/
theorem C16_chunk_loop (W : World) (channels : Int) (s : Session) (buf : SampleBuf)
    (ptr : Nat) (written : List Write) (total : Nat) (htotal : total < 18446744073709551616) :
    ((∀ (i n : Nat), (chunkSizes total)[i]? = some n →
        W.throws (logged s (renderCalls ((chunkSizes total).take i)))
          (EngineOp.Render (n : Int)) = false) →
      (renderLoop W channels s buf ptr total written).threw = false ∧
      (renderLoop W channels s buf ptr total written).session
        = logged s (renderCalls (chunkSizes total))) ∧
    ((renderLoop W channels s buf ptr total written).threw = true →
      ∃ (done : List Nat) (n : Nat), (done ++ [n]) <+: chunkSizes total ∧
        (∀ (i m : Nat), done[i]? = some m →
          W.throws (logged s (renderCalls (done.take i))) (EngineOp.Render (m : Int)) = false) ∧
        W.throws (logged s (renderCalls done)) (EngineOp.Render (n : Int)) = true ∧
        (renderLoop W channels s buf ptr total written).session
          = logged s (renderCalls (done ++ [n]))) ∧
    (chunkSizes total).length = (total + 4095) / 4096 ∧
    (∀ i : Nat, (chunkSizes total)[i]? =
      if 4096 * i < total then some (min (total - 4096 * i) 4096) else none) ∧
    (∀ n ∈ chunkSizes total, 1 ≤ n ∧ n ≤ 4096) ∧
    (chunkSizes total).sum = total := by
  obtain ⟨done, hret, hall, hraise⟩ := renderLoop_calls W channels total s buf ptr written htotal
  refine ⟨?_, ?_, chunkSizes_length total, chunkSizes_get total, chunkSizes_bounds total,
    chunkSizes_sum total⟩
  · intro hquiet
    cases ht : (renderLoop W channels s buf ptr total written).threw with
    | false =>
      obtain ⟨h1, h2⟩ := hall ht
      rw [h1] at h2
      exact ⟨rfl, h2⟩
    | true =>
      obtain ⟨n, h1, _, h3⟩ := hraise ht
      obtain ⟨hget, htake⟩ := snoc_lookup done (chunkSizes total) n h1
      rw [List.get?_eq_getElem?] at hget
      have := hquiet done.length n hget
      rw [htake, h3] at this
      exact absurd this (by simp)
  · intro ht
    obtain ⟨n, h1, h2, h3⟩ := hraise ht
    exact ⟨done, n, h1, hret, h3, h2⟩

/-- C16, witness: 10000 frames in stereo with the silent engine, which never
raises: the loop runs to its end and `Render` has been invoked for 4096, 4096
and 1808 frames. -/
theorem C16_chunk_loop_witness :
    (10000 : Nat) < 18446744073709551616 ∧
    chunkSizes 10000 = [4096, 4096, 1808] ∧
    (renderLoop silentWorld 2 loadedSession silentWorld.freshBuffer 44 10000 []).threw = false ∧
    (renderLoop silentWorld 2 loadedSession silentWorld.freshBuffer 44 10000 []).session
      = logged loadedSession (renderCalls (chunkSizes 10000)) :=
  ⟨by decide, by decide,
   (C16_chunk_loop silentWorld 2 loadedSession silentWorld.freshBuffer 44 [] 10000
     (by decide)).1 (fun _ _ _ => rfl)⟩

/-- C17 (counterexample). One second at 44100 Hz in stereo into a destination
of 100 bytes is rejected for capacity (it returns 0 and stores nothing), but
the engine has been touched: the record of the player has grown by
`SetPlayFreq`, `SetChannels`, `SetSong`, `Reset` and `UpdateInfinite`, so the
session is not the one before the call. -/
theorem C17_engine_configured_before_capacity_check :
    toU32 100 < total_size (data_size (total_frames 1000 0 44100) 2) ∧
    (nsf_to_wav silentWorld loadedSession 1 1000 0 44100 2 100).ret = 0 ∧
    (nsf_to_wav silentWorld loadedSession 1 1000 0 44100 2 100).writes = [] ∧
    (nsf_to_wav silentWorld loadedSession 1 1000 0 44100 2 100).session.g_player
      = some ⟨[EngineOp.SetConfig, EngineOp.Load, EngineOp.SetPlayFreq 44100,
          EngineOp.SetChannels 2, EngineOp.SetSong 0, EngineOp.Reset,
          EngineOp.UpdateInfinite]⟩ ∧
    (nsf_to_wav silentWorld loadedSession 1 1000 0 44100 2 100).session ≠ loadedSession := by
  have hrej : toU32 100 < total_size (data_size (total_frames 1000 0 44100) 2) := by
    unfold toU32 total_size data_size total_frames toU64 toI32 sizeofWAVHeader
    decide
  have h := nsf_to_wav_too_small silentWorld loadedSession _ _ loadedSession_nsf
    loadedSession_player 1 1000 0 44100 2 100 (by decide) (by decide)
    (callPlayerSeq_quiet silentWorld silentWorld_quiet _ _) hrej
  have hsong : toI32 (1 - 1) = 0 := by unfold toI32; decide
  have hp : (logged loadedSession (setupOps 1 44100 2)).g_player
      = some ⟨[EngineOp.SetConfig, EngineOp.Load, EngineOp.SetPlayFreq 44100,
          EngineOp.SetChannels 2, EngineOp.SetSong 0, EngineOp.Reset,
          EngineOp.UpdateInfinite]⟩ := by
    simp only [logged, setupOps, hsong, loadedSession_player]
    rfl
  rw [h]
  refine ⟨hrej, rfl, rfl, hp, ?_⟩
  intro heq
  have := congrArg Session.g_player heq
  rw [hp, loadedSession_player] at this
  simp at this

/-- C17 (as amended). For every `nsf_to_wav` request on a loaded session that
passes the channel and track checks and is rejected because the 32-bit total
output size exceeds `buffer_size` (the configuration calls not raising), the
call returns 0 and stores nothing to the destination; no `Render` has been
performed, but the engine has already been configured for the request:
`SetPlayFreq`, `SetChannels`, `SetSong (track_number - 1)`, `Reset` and
`UpdateInfinite` have been called, and nothing else of the session changed. -/
theorem C17_capacity_rejection_after_configuration (W : World) (s : Session) (nsf : NSF)
    (p : NSFPlayer) (hn : s.g_nsf = some nsf) (hp : s.g_player = some p)
    (tr l f r ch bs : Int) (hch : 1 ≤ ch ∧ ch ≤ 2) (htr : 1 ≤ tr ∧ tr ≤ nsf.total_songs)
    (hsetup : (callPlayerSeq W s (setupOps tr r ch)).2 = false)
    (hrej : toU32 bs < total_size (data_size (total_frames l f r) ch)) :
    (nsf_to_wav W s tr l f r ch bs).ret = 0 ∧
    (nsf_to_wav W s tr l f r ch bs).writes = [] ∧
    (nsf_to_wav W s tr l f r ch bs).session = logged s (setupOps tr r ch) ∧
    (nsf_to_wav W s tr l f r ch bs).session.g_player = some ⟨p.calls ++ setupOps tr r ch⟩ := by
  rw [nsf_to_wav_too_small W s nsf p hn hp tr l f r ch bs hch htr hsetup hrej]
  refine ⟨rfl, rfl, rfl, ?_⟩
  simp [logged, hp]

/-- C17, witness: one second at 44100 Hz in stereo into 100 bytes. -/
theorem C17_capacity_rejection_after_configuration_witness :
    (nsf_to_wav silentWorld loadedSession 1 1000 0 44100 2 100).ret = 0 ∧
    (nsf_to_wav silentWorld loadedSession 1 1000 0 44100 2 100).writes = [] ∧
    (nsf_to_wav silentWorld loadedSession 1 1000 0 44100 2 100).session
      = logged loadedSession (setupOps 1 44100 2) ∧
    (nsf_to_wav silentWorld loadedSession 1 1000 0 44100 2 100).session.g_player
      = some ⟨[EngineOp.SetConfig, EngineOp.Load] ++ setupOps 1 44100 2⟩ :=
  C17_capacity_rejection_after_configuration silentWorld loadedSession _ _ loadedSession_nsf
    loadedSession_player 1 1000 0 44100 2 100 (by decide) (by decide)
    (callPlayerSeq_quiet silentWorld silentWorld_quiet _ _)
    (by unfold toU32 total_size data_size total_frames toU64 toI32 sizeofWAVHeader
        decide)

/-- C18 (counterexample). In the state right after a successful
`init_nsf_player`, with no load, `nsf_reset` invokes the engine's `Reset` and
`nsf_render_audio` for 5 frames invokes `Render` and returns 5, not 0. After a
`load_nsf_data` that then fails when the parsed file is handed to the player
(it returns 0), the collection object holds the three songs of the file:
`nsf_set_track` for index 1 invokes `SetSong` and `Reset`, and `nsf_to_wav` for
one frame in stereo returns 48, not 0. -/
theorem C18_created_state_reaches_engine :
    (init_nsf_player silentWorld Session.uninitialized).1 = 1 ∧
    (nsf_reset silentWorld (init_nsf_player silentWorld Session.uninitialized).2).g_player
      = some ⟨[EngineOp.SetConfig, EngineOp.Reset]⟩ ∧
    (nsf_render_audio silentWorld (init_nsf_player silentWorld Session.uninitialized).2 1 5
      (some silentWorld.freshBuffer)).2.2.g_player
      = some ⟨[EngineOp.SetConfig, EngineOp.Render 5]⟩ ∧
    (nsf_render_audio silentWorld (init_nsf_player silentWorld Session.uninitialized).2 1 5
      (some silentWorld.freshBuffer)).1 = 5 ∧
    (init_nsf_player unboundWorld Session.uninitialized).1 = 1 ∧
    (load_nsf_data unboundWorld (init_nsf_player unboundWorld Session.uninitialized).2
      nesmFile true).1 = 0 ∧
    (nsf_set_track unboundWorld unboundSession 1).g_player
      = some ⟨[EngineOp.SetConfig, EngineOp.Load, EngineOp.SetSong 1, EngineOp.Reset]⟩ ∧
    (nsf_to_wav unboundWorld unboundSession 1 1 0 1000 2 48).ret = 48 := by
  obtain ⟨hn, hp⟩ := init_nsf_player_created silentWorld Session.uninitialized
  have h := nsf_render_audio_call silentWorld _ _ _ hp hn 1 5 silentWorld.freshBuffer
    (by decide)
  have hsz : total_size (data_size (total_frames 1 0 1000) 2) ≤ toU32 48 := by
    unfold total_size data_size total_frames toU64 toU32 toI32 sizeofWAVHeader
    decide
  have hwav := (nsf_to_wav_quiet unboundWorld unboundWorld_quiet unboundSession _ _
    unboundSession_nsf unboundSession_player 1 1 0 1000 2 48 (Or.inr rfl) (by decide) hsz).1
  rw [h, hwav]
  refine ⟨by decide, by decide, ?_, ?_, by decide, by decide, by decide, ?_⟩
  · simp only [logged, hp]
    rfl
  · have : toI32 (toU32 5) = 5 := by unfold toI32 toU32; decide
    simp only [silentWorld, Bool.false_eq_true, if_false]
    exact this
  · unfold total_size data_size total_frames toU64 toI32 sizeofWAVHeader
    decide

/-- C18 (as amended). In every session state `c` reached by a successful
`init_nsf_player` with no successful `load_nsf_data` since, the engine and a
collection object both exist; right after `init_nsf_player` the collection
object is the empty one, and a load that failed may have left a parsed file in
it. `nsf_reset` invokes the engine's `Reset`; `nsf_render_audio` with a
positive frame count and a destination invokes `Render` once and returns what
it reports (0 only when the count is not positive or the destination is null,
in which case the engine is not invoked); `nsf_set_track` and `nsf_to_wav` are
guarded by the song count the collection object holds: for an index or track
outside its range `nsf_set_track` performs no engine operation and
`nsf_to_wav` returns 0 without any engine operation or store, and for one
inside it `nsf_set_track` invokes `SetSong` and `nsf_to_wav`, for one or two
channels, invokes `SetPlayFreq` and goes on as in a loaded session. -/
theorem C18_created_state_behaviour (W : World) (c : Session) (hc : Created W c) :
    ∃ (nsf : NSF) (p : NSFPlayer), c.g_nsf = some nsf ∧ c.g_player = some p ∧
      (∀ s0 : Session, c = (init_nsf_player W s0).2 → nsf = W.newNSF) ∧
      nsf_reset W c = logged c [EngineOp.Reset] ∧
      (∀ (tr fc : Int) (buf : SampleBuf), 0 < fc →
        (nsf_render_audio W c tr fc (some buf)).2.2 = logged c [EngineOp.Render fc] ∧
        (W.throws c (EngineOp.Render fc) = false →
          (nsf_render_audio W c tr fc (some buf)).1 = toI32 (toU32 (W.Render c buf fc).2))) ∧
      (∀ (tr fc : Int) (ob : Option SampleBuf), fc ≤ 0 ∨ ob = none →
        nsf_render_audio W c tr fc ob = (0, ob, c)) ∧
      (∀ tr : Int, tr < 0 ∨ nsf.total_songs ≤ tr → nsf_set_track W c tr = c) ∧
      (∀ tr : Int, 0 ≤ tr ∧ tr < nsf.total_songs →
        ∃ rest, nsf_set_track W c tr = logged c (EngineOp.SetSong tr :: rest)) ∧
      (∀ tr l f r ch bs : Int, tr < 1 ∨ nsf.total_songs < tr →
        nsf_to_wav W c tr l f r ch bs = ⟨0, [], c⟩) ∧
      (∀ tr l f r ch bs : Int, 1 ≤ ch ∧ ch ≤ 2 → 1 ≤ tr ∧ tr ≤ nsf.total_songs →
        ∃ rest, (nsf_to_wav W c tr l f r ch bs).session
          = logged c (EngineOp.SetPlayFreq r :: rest)) := by
  obtain ⟨hn0, hp0⟩ := Created_objects W c hc
  cases hn : c.g_nsf with
  | none => rw [hn] at hn0; simp at hn0
  | some nsf =>
    cases hp : c.g_player with
    | none => rw [hp] at hp0; simp at hp0
    | some p =>
      refine ⟨nsf, p, rfl, rfl, ?_, ?_, ?_, ?_, ?_, ?_, ?_, ?_⟩
      · intro s0 h0
        have := (init_nsf_player_created W s0).1
        rw [← h0, hn] at this
        exact Option.some.inj this
      · unfold nsf_reset
        simp only [hp]
        rfl
      · intro tr fc buf hfc
        rw [nsf_render_audio_call W c _ _ hp hn tr fc buf hfc]
        refine ⟨rfl, ?_⟩
        intro ht
        simp [ht]
      · intro tr fc ob h
        unfold nsf_render_audio
        simp only [hp, hn]
        cases ob with
        | none => rfl
        | some buf =>
          rcases h with h | h
          · simp [h]
          · simp at h
      · intro tr h
        unfold nsf_set_track
        have : ¬ (0 ≤ tr ∧ tr < nsf.total_songs) := by omega
        simp [hp, hn, this]
      · intro tr h
        obtain ⟨rest, hrest⟩ := callPlayerSeq_first W [EngineOp.Reset] (EngineOp.SetSong tr) c
        refine ⟨rest, ?_⟩
        unfold nsf_set_track
        simp only [hp, hn, h, and_self, if_true]
        exact hrest
      · intro tr l f r ch bs h
        unfold nsf_to_wav
        have : tr < 1 ∨ tr > nsf.total_songs := by omega
        simp only [hp, hn, this, if_true]
        split <;> rfl
      · intro tr l f r ch bs hch htr
        exact nsf_to_wav_first W c nsf p hn hp tr l f r ch bs hch htr

/-- C18, witness: the session created with an engine that refuses to bind, after
a load of `nesmFile` that returned 0. Its collection object holds three songs. -/
theorem C18_created_state_behaviour_witness :
    Created unboundWorld unboundSession ∧
    unboundSession.g_nsf = some
      ⟨none, none, none, 3, 1, 120000, 3000, 1, true, [78, 69, 83, 77, 26, 1, 3, 1]⟩ ∧
    (∃ (nsf : NSF) (p : NSFPlayer), unboundSession.g_nsf = some nsf ∧
      unboundSession.g_player = some p ∧
      (∀ s0 : Session, unboundSession = (init_nsf_player unboundWorld s0).2 →
        nsf = unboundWorld.newNSF) ∧
      nsf_reset unboundWorld unboundSession = logged unboundSession [EngineOp.Reset] ∧
      (∀ (tr fc : Int) (buf : SampleBuf), 0 < fc →
        (nsf_render_audio unboundWorld unboundSession tr fc (some buf)).2.2
          = logged unboundSession [EngineOp.Render fc] ∧
        (unboundWorld.throws unboundSession (EngineOp.Render fc) = false →
          (nsf_render_audio unboundWorld unboundSession tr fc (some buf)).1
            = toI32 (toU32 (unboundWorld.Render unboundSession buf fc).2))) ∧
      (∀ (tr fc : Int) (ob : Option SampleBuf), fc ≤ 0 ∨ ob = none →
        nsf_render_audio unboundWorld unboundSession tr fc ob = (0, ob, unboundSession)) ∧
      (∀ tr : Int, tr < 0 ∨ nsf.total_songs ≤ tr →
        nsf_set_track unboundWorld unboundSession tr = unboundSession) ∧
      (∀ tr : Int, 0 ≤ tr ∧ tr < nsf.total_songs →
        ∃ rest, nsf_set_track unboundWorld unboundSession tr
          = logged unboundSession (EngineOp.SetSong tr :: rest)) ∧
      (∀ tr l f r ch bs : Int, tr < 1 ∨ nsf.total_songs < tr →
        nsf_to_wav unboundWorld unboundSession tr l f r ch bs = ⟨0, [], unboundSession⟩) ∧
      (∀ tr l f r ch bs : Int, 1 ≤ ch ∧ ch ≤ 2 → 1 ≤ tr ∧ tr ≤ nsf.total_songs →
        ∃ rest, (nsf_to_wav unboundWorld unboundSession tr l f r ch bs).session
          = logged unboundSession (EngineOp.SetPlayFreq r :: rest))) :=
  have hc : Created unboundWorld unboundSession :=
    Created.failedLoad _ nesmFile true (Created.init Session.uninitialized (by decide))
      (by decide)
  ⟨hc, unboundSession_nsf, C18_created_state_behaviour unboundWorld unboundSession hc⟩

/-- C19. On a loaded session with an engine that does not raise, for one or
two channels, a track in `1..total_songs`, non-negative `length_ms`, `fade_ms`
with `length_ms + fade_ms <= 2^31 - 1`, a non-negative 32-bit `sample_rate`, a
non-negative 32-bit `buffer_size` and
`44 + total_frames * channels * 2 <= buffer_size` where
`total_frames = floor((length_ms + fade_ms) * sample_rate / 1000)`, the call
returns exactly `44 + total_frames * channels * 2`, which is at least 44 and
at most `buffer_size`, and it stores to every destination offset below the
return value and to no other. -/
theorem C19_memory_bound (W : World) (hW : ∀ s op, W.throws s op = false) (s : Session)
    (nsf : NSF) (p : NSFPlayer) (hn : s.g_nsf = some nsf) (hp : s.g_player = some p)
    (tr l f r ch bs : Int) (hch : 1 ≤ ch ∧ ch ≤ 2) (htr : 1 ≤ tr ∧ tr ≤ nsf.total_songs)
    (hl : 0 ≤ l) (hf : 0 ≤ f) (hsum : l + f ≤ 2147483647)
    (hr : 0 ≤ r ∧ r ≤ 2147483647) (hbs : 0 ≤ bs ∧ bs ≤ 2147483647)
    (hcap : 44 + (l + f) * r / 1000 * ch * 2 ≤ bs) :
    (nsf_to_wav W s tr l f r ch bs).ret = 44 + (l + f) * r / 1000 * ch * 2 ∧
    44 ≤ (nsf_to_wav W s tr l f r ch bs).ret ∧
    (nsf_to_wav W s tr l f r ch bs).ret ≤ bs ∧
    (∀ i : Nat, i ∈ (nsf_to_wav W s tr l f r ch bs).writes.map Prod.fst ↔
      (i : Int) < (nsf_to_wav W s tr l f r ch bs).ret) := by
  have hT := total_frames_exact l f r hl hf hsum hr.1 hr.2
  have hch2 : ch = 1 ∨ ch = 2 := by omega
  rw [← hT] at hcap ⊢
  obtain ⟨hsz, hret, hoff⟩ := sizes_exact (total_frames l f r) ch bs hch2 hbs hcap
  obtain ⟨h1, h2⟩ := nsf_to_wav_quiet W hW s nsf p hn hp tr l f r ch bs hch2 htr hsz
  rw [h1, h2, hret, hoff]
  have hnn : 0 ≤ (total_frames l f r : Int) * ch * 2 := by
    rcases hch2 with h | h <;> subst h <;> omega
  refine ⟨rfl, by omega, hcap, ?_⟩
  intro i
  rw [List.mem_range'_1]
  omega

/-- C19, witness: one second at 44100 Hz in stereo into 200000 bytes. -/
theorem C19_memory_bound_witness :
    (44 + (1000 + 0) * 44100 / 1000 * 2 * 2 : Int) ≤ 200000 ∧
    (nsf_to_wav silentWorld loadedSession 1 1000 0 44100 2 200000).ret = 176444 ∧
    (∀ i : Nat,
      i ∈ (nsf_to_wav silentWorld loadedSession 1 1000 0 44100 2 200000).writes.map Prod.fst ↔
        (i : Int) < (nsf_to_wav silentWorld loadedSession 1 1000 0 44100 2 200000).ret) :=
  have h := C19_memory_bound silentWorld silentWorld_quiet loadedSession _ _ loadedSession_nsf
    loadedSession_player 1 1000 0 44100 2 200000 (by decide) (by decide) (by decide)
    (by decide) (by decide) (by decide) (by decide) (by decide)
  ⟨by decide, h.1, h.2.2.2⟩

/-- C20. `nsf_to_wav` ignores the frame count reported by the engine: in two
worlds that differ only in the values `Render` returns, the same request gives
the same result (return value, byte stores with the header, and session with
the sequence of `Render` requests), and so does the chunk loop from any state;
after a chunk that did not raise, the loop goes on with the remaining frames
less the requested count, whatever count was reported. -/
theorem C20_reported_count_ignored (W : World) (count : Session → SampleBuf → Int → Int) :
    (∀ (s : Session) (tr l f r ch bs : Int),
      nsf_to_wav (withRenderCount W count) s tr l f r ch bs = nsf_to_wav W s tr l f r ch bs) ∧
    (∀ (ch : Int) (s : Session) (buf : SampleBuf) (ptr remaining : Nat) (written : List Write),
      renderLoop (withRenderCount W count) ch s buf ptr remaining written
        = renderLoop W ch s buf ptr remaining written) ∧
    (∀ (ch : Int) (s s1 : Session) (buf : SampleBuf) (ptr remaining : Nat)
      (written : List Write), 0 < remaining → remaining < 18446744073709551616 →
      callPlayer (withRenderCount W count) s (EngineOp.Render (frames_to_render remaining))
        = (s1, false) →
      renderLoop (withRenderCount W count) ch s buf ptr remaining written
        = renderLoop (withRenderCount W count) ch s1
            ((withRenderCount W count).Render s buf (frames_to_render remaining)).1
            (ptr + 2 * (toI32 (frames_to_render remaining * ch)).toNat)
            (remaining - min remaining 4096)
            (written ++ copySamples
              ((withRenderCount W count).Render s buf (frames_to_render remaining)).1 ptr
              (toI32 (frames_to_render remaining * ch)).toNat)) := by
  refine ⟨fun s tr l f r ch bs => nsf_to_wav_count W count s tr l f r ch bs,
    fun ch s buf ptr remaining written => renderLoop_count W count ch remaining s buf ptr written,
    ?_⟩
  intro ch s s1 buf ptr remaining written hpos hlt hcall
  rw [renderLoop_step (withRenderCount W count) ch s s1 buf ptr remaining written hpos hcall,
    remaining_step remaining hlt]

end Nsf2Wav
